import Mathlib

/-
Shallow embedding of the BusTub buffer pool subsystem:
the LRU replacer (src/buffer/lru_replacer.cpp), the single-shard buffer pool
manager (src/buffer/buffer_pool_manager_instance.cpp) and the parallel pool
router (src/buffer/parallel_buffer_pool_manager.cpp), together with proofs of
the specification claims about them.

Modelling conventions:
- `page_id_t` and `frame_id_t` (C++ `int32_t`) are modelled as `Int`.  No
  arithmetic in the covered code approaches the 32-bit range on the inputs the
  proofs use, and signed overflow is undefined behaviour in the source, so no
  wrap-around is modelled.
- The page payload (`data_`, a PAGE_SIZE byte array) is abstracted to a single
  `Nat` value; `ResetMemory` writes `0`, `DiskManager::ReadPage` copies the
  disk value, `DiskManager::WritePage` stores it.
- The external `DiskManager` is part of the state: it keeps the current disk
  contents, a log of all `WritePage` calls, and a log of all page
  deallocations, so that write-back and deallocation behaviour is observable.
- `std::unordered_map<page_id_t, frame_id_t>` is modelled as an association
  list with the map operations `ptLookup` (find), `ptInsert`
  (`operator[]` assignment: replace if the key is present, append otherwise)
  and `ptErase` (erase).
- Every operation is a pure function from the old state to the result and the
  new state; the mutex acquisitions in the source serialize operations and are
  represented by the operations being atomic steps of the transition relation.
-/

namespace Bustub

/-- INVALID_PAGE_ID from common/config.h. -/
def INVALID_PAGE_ID : Int := -1

/-- One frame record (the `Page` class): resident page id, pin count, dirty
bit, and the (abstracted) data payload. -/
structure Page where
  page_id : Int
  pin_count : Int
  is_dirty : Bool
  data : Nat
deriving DecidableEq, Repr

/-- Modelled from the spec: the `Page` class constructor is not among the
sources; §3 of the spec (frame record, invariant 4) fixes the free state of a
frame as `page_id = INVALID_PAGE_ID`, `pin_count = 0`, `is_dirty = false` with
zeroed data, which is also the state `DeletePgImp` resets a frame to. -/
def initPage : Page :=
  { page_id := INVALID_PAGE_ID, pin_count := 0, is_dirty := false, data := 0 }

/-- The external disk manager, with the current disk contents plus event logs
for `WritePage` and `DeallocatePage` so that the claims about write-back and
deallocation are observable. -/
structure DiskManager where
  disk : Int → Nat
  writes : List (Int × Nat)
  deallocs : List Int

/-- `DiskManager::WritePage`: persist `d` as the contents of page `p`
(and log the call). -/
def DiskManager.writePage (dm : DiskManager) (p : Int) (d : Nat) : DiskManager :=
  { disk := fun q => if q = p then d else dm.disk q,
    writes := dm.writes ++ [(p, d)],
    deallocs := dm.deallocs }

/-- `DiskManager::ReadPage`: the on-disk contents of page `p`. -/
def DiskManager.readPage (dm : DiskManager) (p : Int) : Nat :=
  dm.disk p

/-- Modelled from the spec: `BufferPoolManagerInstance::DeallocatePage`'s body
is not among the sources; §6 of the spec says the hook is invoked on every
`delete_page` and is permitted to be a no-op.  We record the invocation. -/
def DiskManager.deallocatePage (dm : DiskManager) (p : Int) : DiskManager :=
  { dm with deallocs := dm.deallocs ++ [p] }

/-- A fresh disk manager over initial disk contents `d0`. -/
def DiskManager.init (d0 : Int → Nat) : DiskManager :=
  { disk := d0, writes := [], deallocs := [] }

/-! ### LRU replacer (src/buffer/lru_replacer.cpp)

`frame_ids_` is the list of evictable frames, oldest at the front.  The
auxiliary hash table `frame_id_to_iter_` only caches, for each frame id,
whether (and where) it occurs in `frame_ids_`; it is exactly the membership
test `IsInReplacer`, so the model keeps the list alone and uses list
membership for `IsInReplacer`. -/

structure LRUReplacer where
  frame_ids : List Int
deriving DecidableEq, Repr

/-- `LRUReplacer::IsInReplacer`: the frame occurs in `frame_ids_`
(in the source: its cached iterator is not the sentinel). -/
def LRUReplacer.isInReplacer (r : LRUReplacer) (f : Int) : Bool :=
  decide (f ∈ r.frame_ids)

/-- `LRUReplacer::Victim`: on an empty list write `INVALID_PAGE_ID` to the out
parameter and return false; otherwise pop the front, write it to the out
parameter and return true.  Result: (new replacer, return value, value written
to the out parameter). -/
def LRUReplacer.victim (r : LRUReplacer) : LRUReplacer × Bool × Int :=
  match r.frame_ids with
  | [] => (r, false, INVALID_PAGE_ID)
  | f :: rest => ({ frame_ids := rest }, true, f)

/-- `LRUReplacer::Pin`: remove the frame from `frame_ids_` if present,
otherwise do nothing. -/
def LRUReplacer.pin (r : LRUReplacer) (f : Int) : LRUReplacer :=
  if r.isInReplacer f then { frame_ids := r.frame_ids.erase f } else r

/-- `LRUReplacer::Unpin`: if the frame is already present do nothing,
otherwise append it at the back. -/
def LRUReplacer.unpin (r : LRUReplacer) (f : Int) : LRUReplacer :=
  if r.isInReplacer f then r else { frame_ids := r.frame_ids ++ [f] }

/-- `LRUReplacer::Size`. -/
def LRUReplacer.size (r : LRUReplacer) : Nat :=
  r.frame_ids.length

/-! ### Page table (std::unordered_map<page_id_t, frame_id_t>) -/

/-- `page_table_.find`: the frame bound to page `p`, if any. -/
def ptLookup : List (Int × Int) → Int → Option Int
  | [], _ => none
  | (q, f) :: rest, p => if q = p then some f else ptLookup rest p

/-- `page_table_[p] = f`: replace the binding of `p` if present, otherwise
append a new one. -/
def ptInsert : List (Int × Int) → Int → Int → List (Int × Int)
  | [], p, f => [(p, f)]
  | (q, g) :: rest, p, f =>
      if q = p then (p, f) :: rest else (q, g) :: ptInsert rest p f

/-- `page_table_.erase(p)`: remove the binding of `p` (the first one, which is
the only one while keys are distinct). -/
def ptErase : List (Int × Int) → Int → List (Int × Int)
  | [], _ => []
  | (q, f) :: rest, p => if q = p then rest else (q, f) :: ptErase rest p

/-! ### Buffer pool manager instance
(src/buffer/buffer_pool_manager_instance.cpp) -/

structure BPMInstance where
  pool_size : Nat
  num_instances : Nat
  instance_index : Nat
  next_page_id : Int
  pages : List Page
  replacer : LRUReplacer
  free_list : List Int
  page_table : List (Int × Int)

/-- The frame record in slot `f` (`pages_[f]`). -/
def pageAt (i : BPMInstance) (f : Int) : Page :=
  i.pages.getD f.toNat initPage

/-- Overwrite the frame record in slot `f`. -/
def setPage (i : BPMInstance) (f : Int) (pg : Page) : BPMInstance :=
  { i with pages := i.pages.set f.toNat pg }

/-- The `BufferPoolManagerInstance` constructor: `next_page_id_` starts at
`instance_index`, every frame starts as a default `Page`, the replacer is
empty, and every frame id is initially on the free list in increasing
order. -/
def BPMInstance.init (pool_size num_instances instance_index : Nat) :
    BPMInstance :=
  { pool_size := pool_size,
    num_instances := num_instances,
    instance_index := instance_index,
    next_page_id := (instance_index : Int),
    pages := List.replicate pool_size initPage,
    replacer := { frame_ids := [] },
    free_list := (List.range pool_size).map (fun n : Nat => (n : Int)),
    page_table := [] }

/-- `BufferPoolManagerInstance::AllocatePage`: return `next_page_id_` and bump
it by `num_instances_` (the `ValidatePageId` assertion is proved as the shard
arithmetic theorem). -/
def BPMInstance.allocatePage (i : BPMInstance) : Int × BPMInstance :=
  (i.next_page_id, { i with next_page_id := i.next_page_id + (i.num_instances : Int) })

/-- `BufferPoolManagerInstance::FlushPgImp`: if the page is not in the page
table return false; otherwise write its frame's data to disk under `page_id`,
clear the dirty bit and return true. -/
def BPMInstance.flushPg (i : BPMInstance) (dm : DiskManager) (page_id : Int) :
    Bool × BPMInstance × DiskManager :=
  match ptLookup i.page_table page_id with
  | none => (false, i, dm)
  | some f =>
      let page := pageAt i f
      (true, setPage i f { page with is_dirty := false },
       dm.writePage page_id page.data)

/-- The loop body of `FlushAllPgsImp`, iterating over the page table
entries. -/
def flushAllAux : List (Int × Int) → BPMInstance → DiskManager →
    BPMInstance × DiskManager
  | [], i, dm => (i, dm)
  | (p, f) :: rest, i, dm =>
      let page := pageAt i f
      flushAllAux rest (setPage i f { page with is_dirty := false })
        (dm.writePage p page.data)

/-- `BufferPoolManagerInstance::FlushAllPgsImp`: write every page table
entry's frame to disk and clear its dirty bit. -/
def BPMInstance.flushAllPgs (i : BPMInstance) (dm : DiskManager) :
    BPMInstance × DiskManager :=
  flushAllAux i.page_table i dm

/-- The shared tail of `NewPgImp` after a slot has been claimed: reset the
frame's metadata (`AllocatePage`, pin count 1, clean, `ResetMemory`) and
install the new page-id in the page table.  Returns the new page id. -/
def newPgFinish (i : BPMInstance) (dm : DiskManager) (f : Int) :
    Option Int × BPMInstance × DiskManager :=
  let (pid, i2) := i.allocatePage
  let i3 := setPage i2 f { page_id := pid, is_dirty := false, pin_count := 1, data := 0 }
  (some pid, { i3 with page_table := ptInsert i3.page_table pid f }, dm)

/-- `BufferPoolManagerInstance::NewPgImp`: take a slot from the free list if
possible, otherwise take a replacer victim (writing it back first when dirty
and unbinding its old page), otherwise return the null sentinel; then reset
the slot for a freshly allocated page id.  Returns the allocated page id (the
out parameter / returned `Page*`), or `none` for `nullptr`. -/
def BPMInstance.newPg (i : BPMInstance) (dm : DiskManager) :
    Option Int × BPMInstance × DiskManager :=
  match i.free_list with
  | f :: restFree =>
      newPgFinish { i with free_list := restFree } dm f
  | [] =>
      let (r', ok, f) := i.replacer.victim
      if ok then
        let page := pageAt i f
        let dm2 := if page.is_dirty then dm.writePage page.page_id page.data else dm
        newPgFinish
          { i with replacer := r', page_table := ptErase i.page_table page.page_id }
          dm2 f
      else
        (none, i, dm)

/-- The shared tail of `FetchPgImp` on a page table miss after a slot has been
claimed: set the frame's metadata, read the page from disk, install the
binding and pin the frame in the replacer.  Returns the frame id holding the
fetched page (the returned `Page*`). -/
def fetchInstall (i : BPMInstance) (dm : DiskManager) (page_id f : Int) :
    Option Int × BPMInstance × DiskManager :=
  let i2 := setPage i f
    { page_id := page_id, pin_count := 1, is_dirty := false,
      data := dm.readPage page_id }
  (some f,
   { i2 with page_table := ptInsert i2.page_table page_id f,
             replacer := i2.replacer.pin f },
   dm)

/-- `BufferPoolManagerInstance::FetchPgImp`: on a page table hit increment the
pin count, pin the frame and return it; on a miss claim a slot from the free
list, else a replacer victim (write-back when dirty, unbind the old page),
else return the null sentinel; then install the requested page. -/
def BPMInstance.fetchPg (i : BPMInstance) (dm : DiskManager) (page_id : Int) :
    Option Int × BPMInstance × DiskManager :=
  match ptLookup i.page_table page_id with
  | some f =>
      let page := pageAt i f
      let i2 := setPage i f { page with pin_count := page.pin_count + 1 }
      (some f, { i2 with replacer := i2.replacer.pin f }, dm)
  | none =>
      match i.free_list with
      | f :: restFree =>
          fetchInstall { i with free_list := restFree } dm page_id f
      | [] =>
          let (r', ok, f) := i.replacer.victim
          if ok then
            let page := pageAt i f
            let dm2 := if page.is_dirty then dm.writePage page.page_id page.data else dm
            fetchInstall
              { i with replacer := r',
                       page_table := ptErase i.page_table page.page_id }
              dm2 page_id f
          else
            (none, i, dm)

/-- `BufferPoolManagerInstance::UnpinPgImp`: false when the page is absent or
its pin count is already `≤ 0`; otherwise OR the dirty hint into the dirty
bit, decrement the pin count, and hand the frame to the replacer when the pin
count reaches zero. -/
def BPMInstance.unpinPg (i : BPMInstance) (page_id : Int) ( is_dirty : Bool) :
    Bool × BPMInstance :=
  match ptLookup i.page_table page_id with
  | none => (false, i)
  | some f =>
      let page := pageAt i f
      if page.pin_count ≤ 0 then (false, i)
      else
        let page2 := if is_dirty then { page with is_dirty := is_dirty } else page
        let page3 := { page2 with pin_count := page2.pin_count - 1 }
        let i2 := setPage i f page3
        if page3.pin_count ≤ 0 then
          (true, { i2 with replacer := i2.replacer.unpin f })
        else
          (true, i2)

/-- `BufferPoolManagerInstance::DeletePgImp`: call `DeallocatePage`
unconditionally; return true when the page is absent; refuse (false, no state
change) when the pin count is nonzero; otherwise write back when dirty, remove
the frame from the replacer, erase the binding, reset the frame to the free
state and append it to the free list. -/
def BPMInstance.deletePg (i : BPMInstance) (dm : DiskManager) (page_id : Int) :
    Bool × BPMInstance × DiskManager :=
  let dm1 := dm.deallocatePage page_id
  match ptLookup i.page_table page_id with
  | none => (true, i, dm1)
  | some f =>
      let page := pageAt i f
      if page.pin_count ≠ 0 then (false, i, dm1)
      else
        let dm2 := if page.is_dirty then dm1.writePage page.page_id page.data else dm1
        let i2 := { i with replacer := i.replacer.pin f }
        let i3 := { i2 with page_table := ptErase i2.page_table page_id }
        let i4 := setPage i3 f initPage
        (true, { i4 with free_list := i4.free_list ++ [f] }, dm2)

/-! ### Parallel buffer pool manager
(src/buffer/parallel_buffer_pool_manager.cpp) -/

structure ParallelBPM where
  instances : List BPMInstance
  start_index : Nat

/-- The `ParallelBufferPoolManager` constructor: `num_instances` instances,
each with the same pool size and its own instance index; the rotating cursor
starts at 0. -/
def ParallelBPM.init (num_instances pool_size : Nat) : ParallelBPM :=
  { instances := (List.range num_instances).map
      (fun k => BPMInstance.init pool_size num_instances k),
    start_index := 0 }

/-- A placeholder instance for out-of-range `List.getD` indexing (never
reached on the indices the code uses). -/
def dfltInstance : BPMInstance := BPMInstance.init 0 1 0

/-- The scan loop of `ParallelBufferPoolManager::NewPgImp`: starting at
absolute index `idx`, try up to `fuel` instances (indexing modulo the number
of instances) and stop at the first success. -/
def scanNewPg (insts : List BPMInstance) (dm : DiskManager) (idx : Nat) :
    Nat → Option Int × List BPMInstance × DiskManager
  | 0 => (none, insts, dm)
  | fuel + 1 =>
      let m := idx % insts.length
      match (insts.getD m dfltInstance).newPg dm with
      | (some pid, inst', dm') => (some pid, insts.set m inst', dm')
      | (none, inst', dm') => scanNewPg (insts.set m inst') dm' (idx + 1) fuel

/-- `ParallelBufferPoolManager::NewPgImp`: scan the instances round-robin
starting at `start_index`, return the first successful allocation, and advance
`start_index` by one modulo the number of instances whether or not the scan
succeeded. -/
def ParallelBPM.newPg (p : ParallelBPM) (dm : DiskManager) :
    Option Int × ParallelBPM × DiskManager :=
  let n := p.instances.length
  let (res, insts', dm') := scanNewPg p.instances dm p.start_index n
  (res, { instances := insts', start_index := (p.start_index + 1) % n }, dm')

/-! ### Auxiliary notions for the claims -/

/-- `Unpin` called once for each frame of `fs`, in order. -/
def unpinAll (r : LRUReplacer) : List Int → LRUReplacer
  | [] => r
  | f :: fs => unpinAll (r.unpin f) fs

/-- The out-parameter values of `n` successive `Victim` calls, stopping at the
first failing call. -/
def victimSeq : Nat → LRUReplacer → List Int
  | 0, _ => []
  | n + 1, r =>
      let (r', ok, f) := r.victim
      if ok then f :: victimSeq n r' else []

/-- The results of `n` consecutive `new_page` calls on the parallel pool,
threading the pool and disk state. -/
def poolNewPgSeq : Nat → ParallelBPM → DiskManager →
    List (Option Int) × ParallelBPM × DiskManager
  | 0, P, dm => ([], P, dm)
  | n + 1, P, dm =>
      let (r, P', dm') := P.newPg dm
      let (rs, P'', dm'') := poolNewPgSeq n P' dm'
      (r :: rs, P'', dm'')

/-- The instance in slot `k` of an `N`-instance pool can serve the next
`new_page` from its free list, and its allocation counter has the shard
residue `k` (the state of every instance of a freshly constructed pool, and
of any reachable instance with a free frame, by the shard-arithmetic
invariant). -/
def InstanceReady (N k : Nat) (ins : BPMInstance) : Prop :=
  ins.free_list ≠ [] ∧ ins.next_page_id % (N : Int) = (k : Int)

/-- Every instance of the pool is ready to serve `new_page` from its free
list ("every instance has a free frame"). -/
def PoolReady (P : ParallelBPM) : Prop :=
  ∀ k, k < P.instances.length →
    InstanceReady P.instances.length k (P.instances.getD k dfltInstance)

instance (N k : Nat) (ins : BPMInstance) : Decidable (InstanceReady N k ins) :=
  inferInstanceAs (Decidable (ins.free_list ≠ [] ∧
    ins.next_page_id % (N : Int) = (k : Int)))

instance (P : ParallelBPM) : Decidable (PoolReady P) :=
  inferInstanceAs (Decidable (∀ k, k < P.instances.length →
    InstanceReady P.instances.length k (P.instances.getD k dfltInstance)))

/-- The states of one buffer pool instance (paired with its disk manager)
reachable from a freshly constructed instance by the public operations.  The
disk initially holds `d0`; `valid` constrains which page ids clients may pass
to `fetch_page` (instantiate with `fun _ => True` for arbitrary sequences). -/
inductive Reach (d0 : Int → Nat) (valid : Int → Prop) :
    BPMInstance × DiskManager → Prop where
  | init (pool_size num_instances instance_index : Nat)
      (hpos : 0 < num_instances) (hlt : instance_index < num_instances) :
      Reach d0 valid
        (BPMInstance.init pool_size num_instances instance_index,
         DiskManager.init d0)
  | newPg {s} : Reach d0 valid s → Reach d0 valid (s.1.newPg s.2).2
  | fetchPg {s} (p : Int) (hp : valid p) : Reach d0 valid s →
      Reach d0 valid (s.1.fetchPg s.2 p).2
  | unpinPg {s} (p : Int) (d : Bool) : Reach d0 valid s →
      Reach d0 valid ((s.1.unpinPg p d).2, s.2)
  | flushPg {s} (p : Int) : Reach d0 valid s →
      Reach d0 valid (s.1.flushPg s.2 p).2
  | flushAllPgs {s} : Reach d0 valid s → Reach d0 valid (s.1.flushAllPgs s.2)
  | deletePg {s} (p : Int) : Reach d0 valid s →
      Reach d0 valid (s.1.deletePg s.2 p).2

/-- The inductive invariant of one instance: the partition facts about
`free_list`, the replacer and the pinned frames, the page table consistency
facts needed to preserve them, and the page-id allocation facts. -/
structure Inv (valid : Int → Prop) (i : BPMInstance) : Prop where
  pages_len : i.pages.length = i.pool_size
  inst_pos : 0 < i.num_instances
  free_nonneg : ∀ f ∈ i.free_list, 0 ≤ f
  free_lt : ∀ f ∈ i.free_list, f.toNat < i.pool_size
  free_pin : ∀ f ∈ i.free_list, (pageAt i f).pin_count = 0
  repl_nonneg : ∀ f ∈ i.replacer.frame_ids, 0 ≤ f
  repl_lt : ∀ f ∈ i.replacer.frame_ids, f.toNat < i.pool_size
  repl_pin : ∀ f ∈ i.replacer.frame_ids, (pageAt i f).pin_count = 0
  free_nodup : i.free_list.Nodup
  repl_nodup : i.replacer.frame_ids.Nodup
  disj : ∀ f ∈ i.free_list, f ∉ i.replacer.frame_ids
  cover : ∀ f : Int, 0 ≤ f → f.toNat < i.pool_size →
      f ∈ i.free_list ∨ f ∈ i.replacer.frame_ids ∨ 0 < (pageAt i f).pin_count
  tbl_nonneg : ∀ e ∈ i.page_table, 0 ≤ e.2
  tbl_lt : ∀ e ∈ i.page_table, e.2.toNat < i.pool_size
  tbl_pid : ∀ e ∈ i.page_table, (pageAt i e.2).page_id = e.1
  tbl_not_free : ∀ e ∈ i.page_table, e.2 ∉ i.free_list
  keys_nodup : (i.page_table.map Prod.fst).Nodup
  vals_nodup : (i.page_table.map Prod.snd).Nodup
  keys_valid : ∀ e ∈ i.page_table, valid e.1 ∨ 0 ≤ e.1
  next_nonneg : 0 ≤ i.next_page_id
  next_mod : i.next_page_id % (i.num_instances : Int) = (i.instance_index : Int)

/-- The facts holding at the intermediate point inside `NewPgImp`/`FetchPgImp`
where a slot `f` has been claimed (popped from the free list, or victimized
with its old binding erased) and the new page has not yet been installed:
all the invariant's fields except that `f` is accounted for separately. -/
structure ClaimedSlot (valid : Int → Prop) (j : BPMInstance) (f : Int) :
    Prop where
  pages_len : j.pages.length = j.pool_size
  inst_pos : 0 < j.num_instances
  f_nonneg : 0 ≤ f
  f_lt : f.toNat < j.pool_size
  f_not_free : f ∉ j.free_list
  f_not_repl : f ∉ j.replacer.frame_ids
  f_not_val : ∀ e ∈ j.page_table, e.2 ≠ f
  free_nonneg : ∀ g ∈ j.free_list, 0 ≤ g
  free_lt : ∀ g ∈ j.free_list, g.toNat < j.pool_size
  free_pin : ∀ g ∈ j.free_list, (pageAt j g).pin_count = 0
  repl_nonneg : ∀ g ∈ j.replacer.frame_ids, 0 ≤ g
  repl_lt : ∀ g ∈ j.replacer.frame_ids, g.toNat < j.pool_size
  repl_pin : ∀ g ∈ j.replacer.frame_ids, (pageAt j g).pin_count = 0
  free_nodup : j.free_list.Nodup
  repl_nodup : j.replacer.frame_ids.Nodup
  disj : ∀ g ∈ j.free_list, g ∉ j.replacer.frame_ids
  cover : ∀ g : Int, 0 ≤ g → g.toNat < j.pool_size →
      g = f ∨ g ∈ j.free_list ∨ g ∈ j.replacer.frame_ids ∨
        0 < (pageAt j g).pin_count
  tbl_nonneg : ∀ e ∈ j.page_table, 0 ≤ e.2
  tbl_lt : ∀ e ∈ j.page_table, e.2.toNat < j.pool_size
  tbl_pid : ∀ e ∈ j.page_table, (pageAt j e.2).page_id = e.1
  tbl_not_free : ∀ e ∈ j.page_table, e.2 ∉ j.free_list
  keys_nodup : (j.page_table.map Prod.fst).Nodup
  vals_nodup : (j.page_table.map Prod.snd).Nodup
  keys_valid : ∀ e ∈ j.page_table, valid e.1 ∨ 0 ≤ e.1

/-- The partition property of claim C1: `free_list`, the replacer's order and
the pinned frames are pairwise disjoint, and together they are exactly the
frame-id set `{0, …, pool_size − 1}`. -/
def FramePartition (i : BPMInstance) : Prop :=
  (∀ f ∈ i.free_list, 0 ≤ f) ∧
  (∀ f ∈ i.replacer.frame_ids, 0 ≤ f) ∧
  (∀ f ∈ i.free_list, f ∉ i.replacer.frame_ids) ∧
  (∀ f ∈ i.free_list, ¬ 0 < (pageAt i f).pin_count) ∧
  (∀ f ∈ i.replacer.frame_ids, ¬ 0 < (pageAt i f).pin_count) ∧
  (∀ n : Nat, n < i.pool_size ↔
    ((n : Int) ∈ i.free_list ∨ (n : Int) ∈ i.replacer.frame_ids ∨
     0 < (pageAt i (n : Int)).pin_count))

/-! ## Basic lemmas about the model's building blocks -/

theorem getD_set_self {α} {l : List α} {n : Nat} (a d : α) (h : n < l.length) :
    (l.set n a).getD n d = a := by
  rw [List.getD_eq_getElem?_getD, List.getElem?_set_eq_of_lt a h]
  rfl

theorem getD_set_ne {α} {l : List α} {m n : Nat} (a d : α) (h : m ≠ n) :
    (l.set m a).getD n d = l.getD n d := by
  rw [List.getD_eq_getElem?_getD, List.getElem?_set_ne h,
    ← List.getD_eq_getElem?_getD]

theorem getD_of_le {α} {l : List α} {n : Nat} (d : α) (h : l.length ≤ n) :
    l.getD n d = d := by
  rw [List.getD_eq_getElem?_getD, List.getElem?_eq_none h]
  rfl

@[simp] theorem setPage_pool_size (i : BPMInstance) (f : Int) (pg : Page) :
    (setPage i f pg).pool_size = i.pool_size := rfl

@[simp] theorem setPage_num_instances (i : BPMInstance) (f : Int) (pg : Page) :
    (setPage i f pg).num_instances = i.num_instances := rfl

@[simp] theorem setPage_instance_index (i : BPMInstance) (f : Int) (pg : Page) :
    (setPage i f pg).instance_index = i.instance_index := rfl

@[simp] theorem setPage_next_page_id (i : BPMInstance) (f : Int) (pg : Page) :
    (setPage i f pg).next_page_id = i.next_page_id := rfl

@[simp] theorem setPage_replacer (i : BPMInstance) (f : Int) (pg : Page) :
    (setPage i f pg).replacer = i.replacer := rfl

@[simp] theorem setPage_free_list (i : BPMInstance) (f : Int) (pg : Page) :
    (setPage i f pg).free_list = i.free_list := rfl

@[simp] theorem setPage_page_table (i : BPMInstance) (f : Int) (pg : Page) :
    (setPage i f pg).page_table = i.page_table := rfl

@[simp] theorem setPage_pages_length (i : BPMInstance) (f : Int) (pg : Page) :
    (setPage i f pg).pages.length = i.pages.length := by
  simp [setPage]

theorem pageAt_setPage_self {i : BPMInstance} {f : Int} (pg : Page)
    (h : f.toNat < i.pages.length) : pageAt (setPage i f pg) f = pg :=
  getD_set_self pg initPage h

theorem pageAt_setPage_ne {i : BPMInstance} {f g : Int} (pg : Page)
    (h : f.toNat ≠ g.toNat) : pageAt (setPage i f pg) g = pageAt i g :=
  getD_set_ne pg initPage h

theorem pageAt_congr {i : BPMInstance} {f g : Int} (h : f.toNat = g.toNat) :
    pageAt i f = pageAt i g := by
  unfold pageAt
  rw [h]

theorem pageAt_of_le {i : BPMInstance} {f : Int}
    (h : i.pages.length ≤ f.toNat) : pageAt i f = initPage :=
  getD_of_le initPage h

theorem toNat_lt_of_pin_pos {i : BPMInstance} {f : Int}
    (h : 0 < (pageAt i f).pin_count) : f.toNat < i.pages.length := by
  by_contra hc
  rw [pageAt_of_le (Nat.le_of_not_lt hc)] at h
  exact absurd h (by norm_num [initPage])

theorem toNat_injective_on_nonneg {f g : Int} (hf : 0 ≤ f) (hg : 0 ≤ g)
    (h : f.toNat = g.toNat) : f = g := by
  omega

/-! ## C10: Victim behaviour -/

/-- C10: when no frame is evictable, `Victim` returns false and writes
`INVALID_PAGE_ID` (−1) into the out parameter; when at least one frame is
evictable it writes the oldest evictable frame (the front of the order) and
returns true. -/
theorem victim_characterization (r : LRUReplacer) :
    (r.frame_ids = [] → r.victim = (r, false, INVALID_PAGE_ID)) ∧
    (∀ f rest, r.frame_ids = f :: rest →
      r.victim = ({ frame_ids := rest }, true, f)) := by
  constructor
  · intro h
    simp [LRUReplacer.victim, h]
  · intro f rest h
    simp [LRUReplacer.victim, h]

theorem victim_characterization_witness :
    ({ frame_ids := [] } : LRUReplacer).victim =
      ({ frame_ids := [] }, false, INVALID_PAGE_ID) ∧
    ({ frame_ids := [3, 7] } : LRUReplacer).victim =
      ({ frame_ids := [7] }, true, 3) :=
  ⟨(victim_characterization { frame_ids := [] }).1 rfl,
   (victim_characterization { frame_ids := [3, 7] }).2 3 [7] rfl⟩

/-! ## C7: LRU order -/

/-- C7 is false as stated: with a replacer whose order already holds frame 5,
unpinning the single frame 3 (distinct and not in the replacer) and then
calling `Victim` once yields 5, not 3 — pre-existing evictable frames are
victimized first, so the victims are not `f1, …, fm`. -/
theorem lru_order_counterexample :
    unpinAll { frame_ids := [5] } [3] = { frame_ids := [5, 3] } ∧
    victimSeq 1 (unpinAll { frame_ids := [5] } [3]) = [5] ∧
    victimSeq 1 (unpinAll { frame_ids := [5] } [3]) ≠ [3] := by
  decide

theorem unpinAll_frame_ids (fs : List Int) :
    ∀ r : LRUReplacer, fs.Nodup → (∀ f ∈ fs, f ∉ r.frame_ids) →
      (unpinAll r fs).frame_ids = r.frame_ids ++ fs := by
  induction fs with
  | nil => intro r _ _; simp [unpinAll]
  | cons f fs ih =>
      intro r hnd hdis
      have hf : f ∉ r.frame_ids := hdis f (by simp)
      have hstep : r.unpin f = { frame_ids := r.frame_ids ++ [f] } := by
        simp [LRUReplacer.unpin, LRUReplacer.isInReplacer, hf]
      have hnd' := List.nodup_cons.mp hnd
      rw [unpinAll, hstep,
        ih { frame_ids := r.frame_ids ++ [f] } hnd'.2 ?_]
      · simp
      · intro g hg hmem
        rcases List.mem_append.mp hmem with h | h
        · exact hdis g (by simp [hg]) h
        · exact hnd'.1 ((List.mem_singleton.mp h) ▸ hg)

theorem victimSeq_drain (l : List Int) :
    victimSeq l.length { frame_ids := l } = l := by
  induction l with
  | nil => rfl
  | cons f rest ih =>
      simpa [victimSeq, LRUReplacer.victim] using ih

/-- C7 (amended): unpinning distinct frames `f1, …, fm`, none currently in the
replacer, appends them behind the pre-existing order, so successive `Victim`
calls return the pre-existing order first and then `f1, …, fm` in exactly that
order; when the order was initially empty, the `m` victims are exactly
`f1, …, fm`. -/
theorem lru_order (r : LRUReplacer) (fs : List Int) (hnd : fs.Nodup)
    (hdis : ∀ f ∈ fs, f ∉ r.frame_ids) :
    victimSeq (r.frame_ids.length + fs.length) (unpinAll r fs) =
      r.frame_ids ++ fs := by
  have h := unpinAll_frame_ids fs r hnd hdis
  have h2 : unpinAll r fs = { frame_ids := r.frame_ids ++ fs } := by
    cases hu : unpinAll r fs with
    | mk l =>
        rw [hu] at h
        simpa using h
  rw [h2, ← List.length_append, victimSeq_drain]

theorem lru_order_witness :
    victimSeq (({ frame_ids := [4] } : LRUReplacer).frame_ids.length +
        ([1, 2] : List Int).length)
      (unpinAll { frame_ids := [4] } [1, 2]) = [4, 1, 2] :=
  lru_order { frame_ids := [4] } [1, 2] (by decide) (by decide)

/-! ## C2: page-id allocation inside new_page -/

/-- C2 is false as stated: with pool size 1 the first `new_page` pins the only
frame; the second call returns the null sentinel and leaves `next_page_id`
unchanged (the claim demands every call, including a failing one, advance it
by `num_instances`), because `AllocatePage` runs only after a slot is
secured. -/
theorem newPg_alloc_counterexample :
    (((BPMInstance.init 1 1 0).newPg (DiskManager.init fun _ => 0)).2.1.newPg
        ((BPMInstance.init 1 1 0).newPg (DiskManager.init fun _ => 0)).2.2).1 =
      none ∧
    (((BPMInstance.init 1 1 0).newPg (DiskManager.init fun _ => 0)).2.1.newPg
        ((BPMInstance.init 1 1 0).newPg (DiskManager.init fun _ => 0)).2.2).2.1.next_page_id =
      ((BPMInstance.init 1 1 0).newPg
        (DiskManager.init fun _ => 0)).2.1.next_page_id ∧
    (((BPMInstance.init 1 1 0).newPg (DiskManager.init fun _ => 0)).2.1.newPg
        ((BPMInstance.init 1 1 0).newPg (DiskManager.init fun _ => 0)).2.2).2.1.next_page_id ≠
      ((BPMInstance.init 1 1 0).newPg
          (DiskManager.init fun _ => 0)).2.1.next_page_id +
        (((BPMInstance.init 1 1 0).newPg
          (DiskManager.init fun _ => 0)).2.1.num_instances : Int) := by
  refine ⟨rfl, rfl, ?_⟩
  decide

/-- C2 (amended): `new_page` allocates the fresh page-id via `AllocatePage`
only after a victim slot is obtained: a call that returns the absent sentinel
leaves `next_page_id` unchanged, while a successful call returns the old
`next_page_id` and advances it by `num_instances`. -/
theorem newPg_alloc (i : BPMInstance) (dm : DiskManager) :
    ((i.newPg dm).1 = none →
      (i.newPg dm).2.1.next_page_id = i.next_page_id) ∧
    (∀ pid, (i.newPg dm).1 = some pid →
      pid = i.next_page_id ∧
      (i.newPg dm).2.1.next_page_id =
        i.next_page_id + (i.num_instances : Int)) := by
  cases hfl : i.free_list with
  | cons f rest =>
      constructor
      · intro h
        simp [BPMInstance.newPg, hfl, newPgFinish, BPMInstance.allocatePage] at h
      · intro pid h
        simp [BPMInstance.newPg, hfl, newPgFinish, BPMInstance.allocatePage] at h ⊢
        simp [hfl, h.symm, newPgFinish, BPMInstance.allocatePage]
  | nil =>
      cases hr : i.replacer.frame_ids with
      | nil =>
          constructor
          · intro _
            simp [BPMInstance.newPg, hfl, LRUReplacer.victim, hr]
          · intro pid h
            simp [BPMInstance.newPg, hfl, LRUReplacer.victim, hr] at h
      | cons v vs =>
          constructor
          · intro h
            simp [BPMInstance.newPg, hfl, LRUReplacer.victim, hr, newPgFinish,
              BPMInstance.allocatePage] at h
          · intro pid h
            simp [BPMInstance.newPg, hfl, LRUReplacer.victim, hr, newPgFinish,
              BPMInstance.allocatePage] at h ⊢
            simp [hfl, hr, h.symm, LRUReplacer.victim, newPgFinish,
              BPMInstance.allocatePage]

theorem newPg_alloc_witness :
    ((BPMInstance.init 1 1 0).newPg (DiskManager.init fun _ => 0)).1 =
        some (BPMInstance.init 1 1 0).next_page_id ∧
    ((BPMInstance.init 1 1 0).newPg
          (DiskManager.init fun _ => 0)).2.1.next_page_id =
      (BPMInstance.init 1 1 0).next_page_id +
        ((BPMInstance.init 1 1 0).num_instances : Int) := by
  have h := (newPg_alloc (BPMInstance.init 1 1 0)
    (DiskManager.init fun _ => 0)).2 0 rfl
  exact ⟨h.1 ▸ rfl, h.2⟩

/-! ## More lemmas about pageAt and setPage -/

@[simp] theorem pageAt_replacer_update (i : BPMInstance) (r : LRUReplacer)
    (f : Int) : pageAt { i with replacer := r } f = pageAt i f := rfl

@[simp] theorem pageAt_table_update (i : BPMInstance) (t : List (Int × Int))
    (f : Int) : pageAt { i with page_table := t } f = pageAt i f := rfl

@[simp] theorem pageAt_free_update (i : BPMInstance) (l : List Int)
    (f : Int) : pageAt { i with free_list := l } f = pageAt i f := rfl

@[simp] theorem pageAt_next_update (i : BPMInstance) (n : Int)
    (f : Int) : pageAt { i with next_page_id := n } f = pageAt i f := rfl

theorem setPage_of_length_le {i : BPMInstance} {f : Int} (pg : Page)
    (h : i.pages.length ≤ f.toNat) : setPage i f pg = i := by
  simp [setPage, List.set_eq_of_length_le h]

/-- The two possible outcomes of reading frame `g` after writing frame `f`:
either `g` is untouched, or `f` and `g` denote the same slot and the read
yields the written record. -/
theorem pageAt_setPage_cases (i : BPMInstance) (f : Int) (pg : Page)
    (g : Int) :
    pageAt (setPage i f pg) g = pageAt i g ∨
    (f.toNat = g.toNat ∧ f.toNat < i.pages.length ∧
      pageAt (setPage i f pg) g = pg ∧ pageAt i f = pageAt i g) := by
  by_cases h : f.toNat = g.toNat
  · by_cases hlt : f.toNat < i.pages.length
    · right
      refine ⟨h, hlt, ?_, pageAt_congr h⟩
      rw [← pageAt_congr (i := setPage i f pg) h]
      exact pageAt_setPage_self pg hlt
    · left
      rw [setPage_of_length_le pg (Nat.le_of_not_lt hlt)]
  · left
    exact pageAt_setPage_ne pg h

/-! ## C9: delete_page error behaviour -/

/-- C9: `delete_page` invokes the external deallocation hook on every call
(even when the page is not resident or deletion is refused), and a delete of a
resident page whose frame has nonzero pin count returns false and leaves the
instance — page table, frame contents, pin count and dirty bit — unchanged,
the disk manager changing only by the logged deallocation. -/
theorem deletePg_spec (i : BPMInstance) (dm : DiskManager) (p : Int) :
    ((i.deletePg dm p).2.2.deallocs = dm.deallocs ++ [p]) ∧
    (∀ f, ptLookup i.page_table p = some f → (pageAt i f).pin_count ≠ 0 →
      i.deletePg dm p = (false, i, dm.deallocatePage p)) := by
  constructor
  · cases hl : ptLookup i.page_table p with
    | none => simp [BPMInstance.deletePg, hl, DiskManager.deallocatePage]
    | some f =>
        by_cases hpin : (pageAt i f).pin_count ≠ 0
        · simp [BPMInstance.deletePg, hl, hpin, DiskManager.deallocatePage]
        · by_cases hd : (pageAt i f).is_dirty = true
          · simp [BPMInstance.deletePg, hl, hpin, hd,
              DiskManager.deallocatePage, DiskManager.writePage]
          · simp [BPMInstance.deletePg, hl, hpin, hd,
              DiskManager.deallocatePage]
  · intro f hl hpin
    simp [BPMInstance.deletePg, hl, hpin]

theorem deletePg_spec_witness :
    (let s1 := (BPMInstance.init 1 1 0).newPg (DiskManager.init fun _ => 0)
     s1.2.1.deletePg s1.2.2 0 = (false, s1.2.1, s1.2.2.deallocatePage 0)) :=
  (deletePg_spec _ _ 0).2 0 rfl (by decide)

/-! ## C6: the dirty bit is a monotone OR under unpin -/

/-- C6: for a resident page with positive pin count, `unpin_page` with a true
dirty hint sets the frame's dirty bit, and with a false hint leaves the dirty
bit exactly as it was (it never clears an already-set bit); in particular
after `new_page → p`, `unpin(p, true)`, `fetch(p)`, `unpin(p, false)` the
frame's dirty bit is still set. -/
theorem unpin_dirty_or :
    (∀ (i : BPMInstance) (p f : Int), ptLookup i.page_table p = some f →
      0 < (pageAt i f).pin_count →
      (pageAt (i.unpinPg p true).2 f).is_dirty = true ∧
      (pageAt (i.unpinPg p false).2 f).is_dirty = (pageAt i f).is_dirty) ∧
    (let dm0 := DiskManager.init fun _ => 0
     let s1 := (BPMInstance.init 1 1 0).newPg dm0
     let i2 := (s1.2.1.unpinPg 0 true).2
     let s3 := i2.fetchPg s1.2.2 0
     let i4 := (s3.2.1.unpinPg 0 false).2
     (pageAt i4 0).is_dirty = true) := by
  constructor
  · intro i p f hl hpin
    have hlt : f.toNat < i.pages.length := toNat_lt_of_pin_pos hpin
    have hnle : ¬ (pageAt i f).pin_count ≤ 0 := not_le.mpr hpin
    constructor
    · simp only [BPMInstance.unpinPg, hl, if_neg hnle]
      split <;> split <;>
        simp_all [pageAt, setPage, getD_set_self _ _ hlt]
    · simp only [BPMInstance.unpinPg, hl, if_neg hnle]
      split <;> split <;>
        simp_all [pageAt, setPage, getD_set_self _ _ hlt]
  · decide

theorem unpin_dirty_or_witness :
    (pageAt ((BPMInstance.mk 1 1 0 1 [Page.mk 5 2 false 0] ⟨[]⟩ []
        [(5, 0)]).unpinPg 5 true).2 0).is_dirty = true ∧
    (pageAt ((BPMInstance.mk 1 1 0 1 [Page.mk 5 2 false 0] ⟨[]⟩ []
        [(5, 0)]).unpinPg 5 false).2 0).is_dirty =
      (pageAt (BPMInstance.mk 1 1 0 1 [Page.mk 5 2 false 0] ⟨[]⟩ []
        [(5, 0)]) 0).is_dirty :=
  unpin_dirty_or.1 (BPMInstance.mk 1 1 0 1 [Page.mk 5 2 false 0] ⟨[]⟩ []
    [(5, 0)]) 5 0 rfl (by decide)

/-! ## C8: parallel pool round-robin -/

theorem newPg_none {i : BPMInstance} {dm : DiskManager}
    (h : (i.newPg dm).1 = none) : i.newPg dm = (none, i, dm) := by
  cases hfl : i.free_list with
  | cons f rest =>
      simp [BPMInstance.newPg, hfl, newPgFinish, BPMInstance.allocatePage] at h
  | nil =>
      cases hr : i.replacer.frame_ids with
      | nil => simp [BPMInstance.newPg, hfl, LRUReplacer.victim, hr]
      | cons f vs =>
          simp [BPMInstance.newPg, hfl, LRUReplacer.victim, hr, newPgFinish,
            BPMInstance.allocatePage] at h

theorem set_getD_self {α} : ∀ (l : List α) (m : Nat) (d : α),
    m < l.length → l.set m (l.getD m d) = l := by
  intro l
  induction l with
  | nil =>
      intro m d h
      simp at h
  | cons a t ih =>
      intro m d h
      cases m with
      | zero => rfl
      | succ m =>
          show a :: t.set m (t.getD m d) = a :: t
          rw [ih m d (by simpa using h)]

theorem add_mod_ne {s u N : Nat} (hs : s < N) (hu : 0 < u) (huN : u < N) :
    (s + u) % N ≠ s := by
  intro h
  rcases Nat.lt_or_ge (s + u) N with hlt | hge
  · rw [Nat.mod_eq_of_lt hlt] at h
    omega
  · have h2 : s + u - N < N := by omega
    rw [Nat.mod_eq_sub_mod hge, Nat.mod_eq_of_lt h2] at h
    omega

/-- The scan loop returns the page of the first succeeding instance: if the
instances at offsets `0, …, j−1` from the scan start all fail and the one at
offset `j` succeeds, the scan returns its page. -/
theorem scan_skips {pid : Int} :
    ∀ (j : Nat) (insts : List BPMInstance) (dm : DiskManager)
      (idx fuel : Nat),
      0 < insts.length → j < fuel →
      (∀ u, u < j →
        ((insts.getD ((idx + u) % insts.length) dfltInstance).newPg dm).1 =
          none) →
      ((insts.getD ((idx + j) % insts.length) dfltInstance).newPg dm).1 =
        some pid →
      (scanNewPg insts dm idx fuel).1 = some pid := by
  intro j
  induction j with
  | zero =>
      intro insts dm idx fuel hN hfuel hfail hsucc
      obtain ⟨f, rfl⟩ : ∃ f, fuel = f + 1 := ⟨fuel - 1, by omega⟩
      rw [Nat.add_zero] at hsucc
      rw [scanNewPg]
      rcases hc : (insts.getD (idx % insts.length) dfltInstance).newPg dm with
        ⟨r, i2, dm2⟩
      rw [hc] at hsucc
      have hr : r = some pid := hsucc
      subst hr
      simp only [hc]
  | succ j ih =>
      intro insts dm idx fuel hN hfuel hfail hsucc
      obtain ⟨f, rfl⟩ : ∃ f, fuel = f + 1 := ⟨fuel - 1, by omega⟩
      have h0 := hfail 0 (by omega)
      rw [Nat.add_zero] at h0
      have h0' := newPg_none h0
      rw [scanNewPg]
      simp only [h0']
      rw [set_getD_self insts (idx % insts.length) dfltInstance
        (Nat.mod_lt idx hN)]
      refine ih insts dm (idx + 1) f hN (by omega) ?_ ?_
      · intro u hu
        have h := hfail (u + 1) (by omega)
        rwa [show idx + (u + 1) = idx + 1 + u from by omega] at h
      · have h := hsucc
        rwa [show idx + (j + 1) = idx + 1 + j from by omega] at h

/-- A `new_page` call on a pool whose start instance has a free frame
succeeds with that instance's `next_page_id`, touches only that instance,
leaves the disk untouched (the free path performs no write) and advances the
cursor. -/
theorem pool_newPg_step {P : ParallelBPM} {dm : DiskManager}
    (hN : 0 < P.instances.length)
    (hready : (P.instances.getD (P.start_index % P.instances.length)
      dfltInstance).free_list ≠ []) :
    ∃ inst',
      P.newPg dm =
        (some (P.instances.getD (P.start_index % P.instances.length)
            dfltInstance).next_page_id,
         { instances :=
             P.instances.set (P.start_index % P.instances.length) inst',
           start_index := (P.start_index + 1) % P.instances.length },
         dm) := by
  obtain ⟨k, hk⟩ : ∃ k, P.instances.length = k + 1 :=
    ⟨P.instances.length - 1, by omega⟩
  cases hfl : (P.instances.getD (P.start_index % P.instances.length)
      dfltInstance).free_list with
  | nil => exact absurd hfl hready
  | cons f rest =>
      have h1 : ((P.instances.getD (P.start_index % P.instances.length)
          dfltInstance).newPg dm).1 =
          some (P.instances.getD (P.start_index % P.instances.length)
            dfltInstance).next_page_id := by
        simp only [BPMInstance.newPg, hfl, newPgFinish,
          BPMInstance.allocatePage]
      have h2 : ((P.instances.getD (P.start_index % P.instances.length)
          dfltInstance).newPg dm).2.2 = dm := by
        simp only [BPMInstance.newPg, hfl, newPgFinish,
          BPMInstance.allocatePage]
      rcases hc : (P.instances.getD (P.start_index % P.instances.length)
          dfltInstance).newPg dm with ⟨r, i2, dm2⟩
      rw [hc] at h1 h2
      have hr : r = some (P.instances.getD
          (P.start_index % P.instances.length) dfltInstance).next_page_id := h1
      subst hr
      have hdm : dm = dm2 := h2.symm
      subst hdm
      refine ⟨i2, ?_⟩
      have h3 : scanNewPg P.instances dm P.start_index P.instances.length =
          (some (P.instances.getD (P.start_index % P.instances.length)
              dfltInstance).next_page_id,
           P.instances.set (P.start_index % P.instances.length) i2, dm) := by
        rw [hk, scanNewPg, hc, ← hk]
      simp [ParallelBPM.newPg, h3]

theorem poolNewPgSeq_succ (n : Nat) (P : ParallelBPM) (dm : DiskManager) :
    poolNewPgSeq (n + 1) P dm =
      ((P.newPg dm).1 ::
        (poolNewPgSeq n (P.newPg dm).2.1 (P.newPg dm).2.2).1,
       (poolNewPgSeq n (P.newPg dm).2.1 (P.newPg dm).2.2).2) := by
  rw [poolNewPgSeq]

/-- On a pool every instance of which has a free frame (and shard-correct
allocation counters), `n ≤ N` consecutive `new_page` calls all succeed and
the returned page-ids have residues `start_index, start_index + 1, …`
modulo the instance count. -/
theorem poolNewPgSeq_residues :
    ∀ (n : Nat) (P : ParallelBPM) (dm : DiskManager),
      0 < P.instances.length → n ≤ P.instances.length →
      (∀ u, u < n →
        InstanceReady P.instances.length
          ((P.start_index + u) % P.instances.length)
          (P.instances.getD ((P.start_index + u) % P.instances.length)
            dfltInstance)) →
      (poolNewPgSeq n P dm).1.map
          (Option.map (fun pid => pid % (P.instances.length : Int))) =
        (List.range n).map
          (fun t =>
            some (((P.start_index + t) % P.instances.length : Nat) : Int)) := by
  intro n
  induction n with
  | zero =>
      intro P dm _ _ _
      simp [poolNewPgSeq]
  | succ n ih =>
      intro P dm hN hle hready
      have h0 := hready 0 (by omega)
      rw [Nat.add_zero] at h0
      obtain ⟨inst', hstep⟩ := pool_newPg_step hN h0.1
      have hq1 : (P.newPg dm).1 =
          some (P.instances.getD (P.start_index % P.instances.length)
            dfltInstance).next_page_id := by
        rw [hstep]
      have hq2 : (P.newPg dm).2.2 = dm := by
        rw [hstep]
      have hq3 : (P.newPg dm).2.1.instances =
          P.instances.set (P.start_index % P.instances.length) inst' := by
        rw [hstep]
      have hq4 : (P.newPg dm).2.1.start_index =
          (P.start_index + 1) % P.instances.length := by
        rw [hstep]
      have hlen : (P.newPg dm).2.1.instances.length = P.instances.length := by
        rw [hq3, List.length_set]
      have hshift : ∀ t : Nat,
          ((P.start_index + 1) % P.instances.length + t) %
            P.instances.length =
          (P.start_index + (t + 1)) % P.instances.length := by
        intro t
        rw [Nat.mod_add_mod]
        congr 1
        omega
      rw [poolNewPgSeq_succ, hq1, hq2]
      rw [List.map_cons, List.range_succ_eq_map, List.map_cons, List.map_map]
      congr 1
      · simp only [Option.map_some', Nat.add_zero]
        rw [h0.2]
      · have hready' : ∀ u, u < n →
            InstanceReady (P.newPg dm).2.1.instances.length
              (((P.newPg dm).2.1.start_index + u) %
                (P.newPg dm).2.1.instances.length)
              ((P.newPg dm).2.1.instances.getD
                (((P.newPg dm).2.1.start_index + u) %
                  (P.newPg dm).2.1.instances.length) dfltInstance) := by
          intro u hu
          rw [hlen, hq4, hq3, hshift u]
          have hne : (P.start_index + (u + 1)) % P.instances.length ≠
              P.start_index % P.instances.length := by
            have ha := add_mod_ne (s := P.start_index % P.instances.length)
              (u := u + 1) (N := P.instances.length)
              (Nat.mod_lt _ hN) (by omega) (by omega)
            rw [Nat.mod_add_mod] at ha
            exact ha
          rw [getD_set_ne inst' dfltInstance (Ne.symm hne)]
          exact hready (u + 1) (by omega)
        have ihb := ih (P.newPg dm).2.1 dm
          (by rw [hlen]; exact hN) (by rw [hlen]; omega) hready'
        simp only [hlen, hq4] at ihb
        refine ihb.trans (List.map_congr_left ?_)
        intro t ht
        show some ((((P.start_index + 1) % P.instances.length + t) %
            P.instances.length : Nat) : Int) = _
        rw [hshift t]
        rfl

/-- C8: `new_page` on the parallel pool scans the instances round-robin
starting at `start_index` and returns the first successful instance's page:
if the instances at offsets `0, …, j−1` from `start_index` all fail and the
instance at offset `j` succeeds with page `pid`, the call returns `pid`.
After every call — successful or not — `start_index` has advanced by exactly
1 modulo the number of instances.  Consequently, when every instance has a
free frame (with the shard residue of its allocation counter, as the shard
arithmetic guarantees), `num_instances` consecutive `new_page` calls return
page-ids whose residues modulo `num_instances` are
`start_index, start_index + 1, …` — cycling through each residue
`0, …, num_instances − 1` exactly once. -/
theorem parallel_round_robin :
    (∀ (P : ParallelBPM) (dm : DiskManager),
      (P.newPg dm).2.1.start_index =
        (P.start_index + 1) % P.instances.length) ∧
    (∀ (P : ParallelBPM) (dm : DiskManager) (pid : Int) (j : Nat),
      j < P.instances.length →
      (∀ u, u < j →
        ((P.instances.getD ((P.start_index + u) % P.instances.length)
          dfltInstance).newPg dm).1 = none) →
      ((P.instances.getD ((P.start_index + j) % P.instances.length)
          dfltInstance).newPg dm).1 = some pid →
      (P.newPg dm).1 = some pid) ∧
    (∀ (P : ParallelBPM) (dm : DiskManager),
      0 < P.instances.length → PoolReady P →
      (poolNewPgSeq P.instances.length P dm).1.map
          (Option.map (fun pid => pid % (P.instances.length : Int))) =
        (List.range P.instances.length).map
          (fun t =>
            some (((P.start_index + t) % P.instances.length : Nat) : Int))) := by
  refine ⟨?_, ?_, ?_⟩
  · intro P dm
    rcases h : scanNewPg P.instances dm P.start_index P.instances.length with
      ⟨res, insts', dm'⟩
    simp [ParallelBPM.newPg, h]
  · intro P dm pid j hj hfail hsucc
    have hN : 0 < P.instances.length := by omega
    have h1 := scan_skips j P.instances dm P.start_index P.instances.length
      hN hj hfail hsucc
    rcases h : scanNewPg P.instances dm P.start_index P.instances.length with
      ⟨res, insts', dm'⟩
    rw [h] at h1
    have hres : res = some pid := h1
    simp [ParallelBPM.newPg, h, hres]
  · intro P dm hN hready
    exact poolNewPgSeq_residues P.instances.length P dm hN le_rfl
      (fun u hu => hready _ (Nat.mod_lt _ hN))

theorem parallel_round_robin_witness :
    ((ParallelBPM.mk [BPMInstance.mk 1 2 0 2 [Page.mk 0 1 false 0]
          (LRUReplacer.mk []) [] [(0, 0)], BPMInstance.init 1 2 1]
        0).newPg (DiskManager.init fun _ => 0)).2.1.start_index =
      (0 + 1) % 2 ∧
    ((ParallelBPM.mk [BPMInstance.mk 1 2 0 2 [Page.mk 0 1 false 0]
          (LRUReplacer.mk []) [] [(0, 0)], BPMInstance.init 1 2 1]
        0).newPg (DiskManager.init fun _ => 0)).1 = some 1 ∧
    (poolNewPgSeq (ParallelBPM.init 3 1).instances.length
        (ParallelBPM.init 3 1) (DiskManager.init fun _ => 0)).1.map
      (Option.map (fun pid =>
        pid % ((ParallelBPM.init 3 1).instances.length : Int))) =
      [some 0, some 1, some 2] := by
  refine ⟨parallel_round_robin.1 _ _, ?_, ?_⟩
  · exact parallel_round_robin.2.1
      (ParallelBPM.mk [BPMInstance.mk 1 2 0 2 [Page.mk 0 1 false 0]
        (LRUReplacer.mk []) [] [(0, 0)], BPMInstance.init 1 2 1] 0)
      (DiskManager.init fun _ => 0) 1 1 (by decide) (by decide) (by decide)
  · exact (parallel_round_robin.2.2 (ParallelBPM.init 3 1)
      (DiskManager.init fun _ => 0) (by decide) (by decide)).trans (by decide)

/-! ## C3: dirty write-back -/

theorem pageAt_data_clean (i : BPMInstance) (f g : Int) :
    (pageAt (setPage i f { pageAt i f with is_dirty := false }) g).data =
      (pageAt i g).data := by
  rcases pageAt_setPage_cases i f { pageAt i f with is_dirty := false } g with
    h | ⟨_, _, h, he⟩
  · rw [h]
  · rw [h, ← he]

theorem flushAllAux_writes (l : List (Int × Int)) :
    ∀ (i : BPMInstance) (dm : DiskManager),
      (flushAllAux l i dm).2.writes =
        dm.writes ++ l.map (fun e => (e.1, (pageAt i e.2).data)) := by
  induction l with
  | nil => intro i dm; simp [flushAllAux]
  | cons e rest ih =>
      intro i dm
      obtain ⟨p, f⟩ := e
      rw [flushAllAux, ih]
      have hmap : rest.map (fun e =>
          (e.1, (pageAt (setPage i f { pageAt i f with is_dirty := false })
            e.2).data)) = rest.map (fun e => (e.1, (pageAt i e.2).data)) :=
        List.map_congr_left (fun e _ => by rw [pageAt_data_clean])
      simp [DiskManager.writePage, hmap]

/-- C3: on every path that removes a page's frame binding — victim eviction
inside `new_page` or `fetch_page`, and `delete_page` — a set dirty bit causes
the frame's data to be written to disk under the old page-id (the write uses
the evicted frame's stored page-id and data, i.e. the binding before
removal); `flush_page` writes the named resident frame's data to disk, and
`flush_all_pages` writes every resident frame's data to disk. -/
theorem dirty_write_back (i : BPMInstance) (dm : DiskManager) :
    (∀ f rest, i.free_list = [] → i.replacer.frame_ids = f :: rest →
      (pageAt i f).is_dirty = true →
      ((i.newPg dm).2.2).writes =
        dm.writes ++ [((pageAt i f).page_id, (pageAt i f).data)]) ∧
    (∀ p f rest, ptLookup i.page_table p = none → i.free_list = [] →
      i.replacer.frame_ids = f :: rest → (pageAt i f).is_dirty = true →
      ((i.fetchPg dm p).2.2).writes =
        dm.writes ++ [((pageAt i f).page_id, (pageAt i f).data)]) ∧
    (∀ p f, ptLookup i.page_table p = some f → (pageAt i f).pin_count = 0 →
      (pageAt i f).is_dirty = true →
      ((i.deletePg dm p).2.2).writes =
        dm.writes ++ [((pageAt i f).page_id, (pageAt i f).data)]) ∧
    (∀ p f, ptLookup i.page_table p = some f →
      ((i.flushPg dm p).2.2).writes = dm.writes ++ [(p, (pageAt i f).data)]) ∧
    ((i.flushAllPgs dm).2.writes =
      dm.writes ++ i.page_table.map (fun e => (e.1, (pageAt i e.2).data))) := by
  refine ⟨?_, ?_, ?_, ?_, ?_⟩
  · intro f rest hfl hr hd
    simp [BPMInstance.newPg, hfl, LRUReplacer.victim, hr, hd, newPgFinish,
      BPMInstance.allocatePage, DiskManager.writePage]
  · intro p f rest hl hfl hr hd
    simp [BPMInstance.fetchPg, hl, hfl, LRUReplacer.victim, hr, hd,
      fetchInstall, DiskManager.writePage]
  · intro p f hl hpin hd
    simp [BPMInstance.deletePg, hl, hpin, hd, DiskManager.deallocatePage,
      DiskManager.writePage]
  · intro p f hl
    simp [BPMInstance.flushPg, hl, DiskManager.writePage]
  · exact flushAllAux_writes i.page_table i dm

theorem dirty_write_back_witness :
    (let iE : BPMInstance := BPMInstance.mk 1 1 0 1
        [Page.mk 7 0 true 42] (LRUReplacer.mk [0]) [] [(7, 0)]
     let dmW : DiskManager := DiskManager.init fun _ => 0
     ((iE.newPg dmW).2.2).writes = dmW.writes ++ [(7, 42)] ∧
     ((iE.fetchPg dmW 9).2.2).writes = dmW.writes ++ [(7, 42)] ∧
     ((iE.deletePg dmW 7).2.2).writes = dmW.writes ++ [(7, 42)] ∧
     ((iE.flushPg dmW 7).2.2).writes = dmW.writes ++ [(7, 42)] ∧
     (iE.flushAllPgs dmW).2.writes = dmW.writes ++ [(7, 42)]) := by
  refine ⟨?_, ?_, ?_, ?_, ?_⟩
  · exact (dirty_write_back _ _).1 0 [] rfl rfl rfl
  · exact (dirty_write_back _ _).2.1 9 0 [] rfl rfl rfl rfl
  · exact (dirty_write_back _ _).2.2.1 7 0 rfl rfl rfl
  · exact (dirty_write_back _ _).2.2.2.1 7 0 rfl
  · exact (dirty_write_back _ _).2.2.2.2

/-! ## Association list lemmas -/

theorem ptLookup_mem {l : List (Int × Int)} {p f : Int}
    (h : ptLookup l p = some f) : (p, f) ∈ l := by
  induction l with
  | nil => simp [ptLookup] at h
  | cons e rest ih =>
      obtain ⟨q, g⟩ := e
      by_cases hq : q = p
      · subst hq
        simp [ptLookup] at h
        simp [h]
      · rw [ptLookup, if_neg hq] at h
        exact List.mem_cons_of_mem _ (ih h)

theorem ptLookup_eq_none {l : List (Int × Int)} {p : Int}
    (h : ∀ e ∈ l, e.1 ≠ p) : ptLookup l p = none := by
  induction l with
  | nil => rfl
  | cons e rest ih =>
      obtain ⟨q, g⟩ := e
      rw [ptLookup, if_neg (h (q, g) (by simp))]
      exact ih fun e he => h e (List.mem_cons_of_mem _ he)

theorem ptErase_sublist (l : List (Int × Int)) (p : Int) :
    (ptErase l p).Sublist l := by
  induction l with
  | nil => simp [ptErase]
  | cons e rest ih =>
      obtain ⟨q, g⟩ := e
      by_cases hq : q = p
      · rw [ptErase, if_pos hq]
        exact List.sublist_cons_self (q, g) rest
      · rw [ptErase, if_neg hq]
        exact ih.cons₂ (q, g)

theorem mem_ptErase {l : List (Int × Int)} {p : Int} {e : Int × Int}
    (h : e ∈ ptErase l p) : e ∈ l :=
  (ptErase_sublist l p).subset h

theorem ptErase_key_not_mem {l : List (Int × Int)} {p : Int}
    (hkeys : (l.map Prod.fst).Nodup) :
    ∀ e ∈ ptErase l p, e.1 ≠ p := by
  induction l with
  | nil => simp [ptErase]
  | cons a rest ih =>
      obtain ⟨q, g⟩ := a
      rw [List.map_cons, List.nodup_cons] at hkeys
      by_cases hq : q = p
      · subst hq
        rw [ptErase, if_pos rfl]
        intro e he hep
        have hm := List.mem_map_of_mem Prod.fst he
        rw [hep] at hm
        exact hkeys.1 hm
      · rw [ptErase, if_neg hq]
        intro e he
        rcases List.mem_cons.mp he with rfl | he'
        · exact hq
        · exact ih hkeys.2 e he'

theorem vals_nodup_inj {l : List (Int × Int)}
    (h : (l.map Prod.snd).Nodup) :
    ∀ e₁ ∈ l, ∀ e₂ ∈ l, e₁.2 = e₂.2 → e₁ = e₂ := by
  induction l with
  | nil => simp
  | cons a rest ih =>
      rw [List.map_cons, List.nodup_cons] at h
      intro e₁ he₁ e₂ he₂ hval
      rcases List.mem_cons.mp he₁ with rfl | he₁' <;>
        rcases List.mem_cons.mp he₂ with rfl | he₂'
      · rfl
      · exact absurd (hval ▸ List.mem_map_of_mem Prod.snd he₂') h.1
      · exact absurd (hval ▸ List.mem_map_of_mem Prod.snd he₁') h.1
      · exact ih h.2 e₁ he₁' e₂ he₂' hval

theorem vals_of_ptErase_pid {l : List (Int × Int)} {f q0 : Int}
    (hkeys : (l.map Prod.fst).Nodup)
    (hpid : ∀ e ∈ l, e.2 = f → e.1 = q0) :
    ∀ e ∈ ptErase l q0, e.2 ≠ f := by
  induction l with
  | nil => simp [ptErase]
  | cons a rest ih =>
      obtain ⟨q, g⟩ := a
      rw [List.map_cons, List.nodup_cons] at hkeys
      by_cases hq : q = q0
      · subst hq
        rw [ptErase, if_pos rfl]
        intro e he hef
        have h1 : e.1 = q := hpid e (List.mem_cons_of_mem _ he) hef
        have hm := List.mem_map_of_mem Prod.fst he
        rw [h1] at hm
        exact hkeys.1 hm
      · rw [ptErase, if_neg hq]
        intro e he
        rcases List.mem_cons.mp he with rfl | he'
        · intro hgf
          exact hq (hpid (q, g) (by simp) hgf)
        · exact ih hkeys.2 (fun e' he' h => hpid e' (List.mem_cons_of_mem _ he') h)
            e he'

theorem mem_ptInsert {l : List (Int × Int)} {p f : Int}
    (hkeys : (l.map Prod.fst).Nodup) :
    ∀ e ∈ ptInsert l p f, e = (p, f) ∨ (e ∈ l ∧ e.1 ≠ p) := by
  induction l with
  | nil => simp [ptInsert]
  | cons a rest ih =>
      obtain ⟨q, g⟩ := a
      rw [List.map_cons, List.nodup_cons] at hkeys
      by_cases hq : q = p
      · subst hq
        rw [ptInsert, if_pos rfl]
        intro e he
        rcases List.mem_cons.mp he with rfl | he'
        · exact Or.inl rfl
        · refine Or.inr ⟨List.mem_cons_of_mem _ he', ?_⟩
          intro hep
          have hm := List.mem_map_of_mem Prod.fst he'
          rw [hep] at hm
          exact hkeys.1 hm
      · rw [ptInsert, if_neg hq]
        intro e he
        rcases List.mem_cons.mp he with rfl | he'
        · exact Or.inr ⟨by simp, hq⟩
        · rcases ih hkeys.2 e he' with h | ⟨hmem, hne⟩
          · exact Or.inl h
          · exact Or.inr ⟨List.mem_cons_of_mem _ hmem, hne⟩

theorem keys_ptInsert {l : List (Int × Int)} {p f : Int} :
    ∀ q ∈ (ptInsert l p f).map Prod.fst, q = p ∨ q ∈ l.map Prod.fst := by
  induction l with
  | nil => simp [ptInsert]
  | cons a rest ih =>
      obtain ⟨q0, g⟩ := a
      by_cases hq : q0 = p
      · subst hq
        rw [ptInsert, if_pos rfl]
        intro q hq
        rcases List.mem_cons.mp hq with rfl | h
        · exact Or.inl rfl
        · exact Or.inr (by simp [h])
      · rw [ptInsert, if_neg hq]
        intro q hmem
        rcases List.mem_cons.mp hmem with rfl | h
        · exact Or.inr (by simp)
        · rcases ih q h with h' | h'
          · exact Or.inl h'
          · exact Or.inr (by simp [h'])

theorem vals_ptInsert {l : List (Int × Int)} {p f : Int} :
    ∀ g ∈ (ptInsert l p f).map Prod.snd, g = f ∨ g ∈ l.map Prod.snd := by
  induction l with
  | nil => simp [ptInsert]
  | cons a rest ih =>
      obtain ⟨q0, g0⟩ := a
      by_cases hq : q0 = p
      · subst hq
        rw [ptInsert, if_pos rfl]
        intro g hg
        rcases List.mem_cons.mp hg with rfl | h
        · exact Or.inl rfl
        · exact Or.inr (by simp [h])
      · rw [ptInsert, if_neg hq]
        intro g hmem
        rcases List.mem_cons.mp hmem with rfl | h
        · exact Or.inr (by simp)
        · rcases ih g h with h' | h'
          · exact Or.inl h'
          · exact Or.inr (by simp [h'])

theorem ptInsert_keys_nodup {l : List (Int × Int)} {p f : Int}
    (hkeys : (l.map Prod.fst).Nodup) :
    ((ptInsert l p f).map Prod.fst).Nodup := by
  induction l with
  | nil => simp [ptInsert]
  | cons a rest ih =>
      obtain ⟨q, g⟩ := a
      rw [List.map_cons, List.nodup_cons] at hkeys
      by_cases hq : q = p
      · subst hq
        rw [ptInsert, if_pos rfl]
        simpa using hkeys
      · rw [ptInsert, if_neg hq, List.map_cons, List.nodup_cons]
        refine ⟨?_, ih hkeys.2⟩
        intro hqmem
        rcases keys_ptInsert q hqmem with rfl | h
        · exact hq rfl
        · exact hkeys.1 h

theorem ptInsert_vals_nodup {l : List (Int × Int)} {p f : Int}
    (hkeys : (l.map Prod.fst).Nodup)
    (hvals : (l.map Prod.snd).Nodup)
    (hnof : ∀ e ∈ l, e.2 ≠ f) :
    ((ptInsert l p f).map Prod.snd).Nodup := by
  induction l with
  | nil => simp [ptInsert]
  | cons a rest ih =>
      obtain ⟨q, g⟩ := a
      rw [List.map_cons, List.nodup_cons] at hkeys hvals
      by_cases hq : q = p
      · subst hq
        rw [ptInsert, if_pos rfl, List.map_cons, List.nodup_cons]
        refine ⟨?_, hvals.2⟩
        intro hf
        rcases List.mem_map.mp hf with ⟨e, he, hef⟩
        exact hnof e (List.mem_cons_of_mem _ he) hef
      · rw [ptInsert, if_neg hq, List.map_cons, List.nodup_cons]
        refine ⟨?_, ih hkeys.2 hvals.2
          (fun e he => hnof e (List.mem_cons_of_mem _ he))⟩
        intro hgmem
        rcases vals_ptInsert g hgmem with rfl | h
        · exact hnof (q, g) (by simp) rfl
        · exact hvals.1 h

/-! ## Replacer membership lemmas -/

theorem isInReplacer_iff {r : LRUReplacer} {f : Int} :
    r.isInReplacer f = true ↔ f ∈ r.frame_ids :=
  decide_eq_true_iff

theorem pin_of_not_mem {r : LRUReplacer} {f : Int} (h : f ∉ r.frame_ids) :
    r.pin f = r := by
  simp [LRUReplacer.pin, LRUReplacer.isInReplacer, h]

theorem unpin_of_not_mem {r : LRUReplacer} {f : Int} (h : f ∉ r.frame_ids) :
    r.unpin f = { frame_ids := r.frame_ids ++ [f] } := by
  simp [LRUReplacer.unpin, LRUReplacer.isInReplacer, h]

theorem mem_of_mem_pin {r : LRUReplacer} {f g : Int}
    (h : g ∈ (r.pin f).frame_ids) : g ∈ r.frame_ids := by
  by_cases hf : f ∈ r.frame_ids
  · rw [LRUReplacer.pin, if_pos (isInReplacer_iff.mpr hf)] at h
    exact (List.erase_subset _ _) h
  · rwa [pin_of_not_mem hf] at h

theorem mem_pin_of_ne {r : LRUReplacer} {f g : Int} (hne : g ≠ f)
    (h : g ∈ r.frame_ids) : g ∈ (r.pin f).frame_ids := by
  by_cases hf : f ∈ r.frame_ids
  · rw [LRUReplacer.pin, if_pos (isInReplacer_iff.mpr hf)]
    exact (List.mem_erase_of_ne hne).mpr h
  · rwa [pin_of_not_mem hf]

theorem not_mem_pin_self {r : LRUReplacer} {f : Int}
    (hnd : r.frame_ids.Nodup) : f ∉ (r.pin f).frame_ids := by
  by_cases hf : f ∈ r.frame_ids
  · rw [LRUReplacer.pin, if_pos (isInReplacer_iff.mpr hf)]
    exact hnd.not_mem_erase
  · rwa [pin_of_not_mem hf]

theorem pin_nodup {r : LRUReplacer} {f : Int}
    (hnd : r.frame_ids.Nodup) : (r.pin f).frame_ids.Nodup := by
  by_cases hf : f ∈ r.frame_ids
  · rw [LRUReplacer.pin, if_pos (isInReplacer_iff.mpr hf)]
    exact hnd.erase f
  · rwa [pin_of_not_mem hf]

/-! ## Preservation of the invariant -/

/-- Installing a fresh page into a claimed slot restores the invariant. -/
theorem inv_of_claimed {valid : Int → Prop} {j : BPMInstance} {f pid : Int}
    {d : Nat} {next' : Int}
    (cs : ClaimedSlot valid j f)
    (hpid : valid pid ∨ 0 ≤ pid)
    (hn1 : 0 ≤ next')
    (hn2 : next' % (j.num_instances : Int) = (j.instance_index : Int)) :
    Inv valid
      (BPMInstance.mk j.pool_size j.num_instances j.instance_index next'
        (j.pages.set f.toNat
          { page_id := pid, pin_count := 1, is_dirty := false, data := d })
        j.replacer j.free_list (ptInsert j.page_table pid f)) := by
  have hflen : f.toNat < j.pages.length := by
    rw [cs.pages_len]; exact cs.f_lt
  have htn : ∀ g : Int, 0 ≤ g → g ≠ f → g.toNat ≠ f.toNat := fun g hg hne h =>
    hne (toNat_injective_on_nonneg hg cs.f_nonneg h)
  have hpage : ∀ g : Int, 0 ≤ g → g ≠ f →
      pageAt (BPMInstance.mk j.pool_size j.num_instances j.instance_index
        next' (j.pages.set f.toNat
          { page_id := pid, pin_count := 1, is_dirty := false, data := d })
        j.replacer j.free_list (ptInsert j.page_table pid f)) g =
      pageAt j g := by
    intro g hg0 hgf
    show (j.pages.set f.toNat _).getD g.toNat initPage = _
    rw [getD_set_ne _ initPage (Ne.symm (htn g hg0 hgf))]
    rfl
  have hpageF : pageAt (BPMInstance.mk j.pool_size j.num_instances
      j.instance_index next' (j.pages.set f.toNat
        { page_id := pid, pin_count := 1, is_dirty := false, data := d })
      j.replacer j.free_list (ptInsert j.page_table pid f)) f =
      { page_id := pid, pin_count := 1, is_dirty := false, data := d } := by
    show (j.pages.set f.toNat _).getD f.toNat initPage = _
    exact getD_set_self _ initPage hflen
  refine ⟨?_, cs.inst_pos, cs.free_nonneg, cs.free_lt, ?_, cs.repl_nonneg,
    cs.repl_lt, ?_, cs.free_nodup, cs.repl_nodup, cs.disj, ?_, ?_, ?_, ?_,
    ?_, ptInsert_keys_nodup cs.keys_nodup,
    ptInsert_vals_nodup cs.keys_nodup cs.vals_nodup cs.f_not_val, ?_,
    hn1, hn2⟩
  · show (j.pages.set f.toNat _).length = j.pool_size
    rw [List.length_set]
    exact cs.pages_len
  · intro g hg
    have hgf : g ≠ f := fun h => cs.f_not_free (h ▸ hg)
    rw [hpage g (cs.free_nonneg g hg) hgf]
    exact cs.free_pin g hg
  · intro g hg
    have hgf : g ≠ f := fun h => cs.f_not_repl (h ▸ hg)
    rw [hpage g (cs.repl_nonneg g hg) hgf]
    exact cs.repl_pin g hg
  · intro g hg0 hglt
    rcases cs.cover g hg0 hglt with rfl | h | h | h
    · right; right
      rw [hpageF]
      norm_num
    · exact Or.inl h
    · exact Or.inr (Or.inl h)
    · right; right
      by_cases hgf : g = f
      · subst hgf
        rw [hpageF]
        norm_num
      · rw [hpage g hg0 hgf]
        exact h
  · intro e he
    rcases mem_ptInsert cs.keys_nodup e he with rfl | ⟨hmem, _⟩
    · exact cs.f_nonneg
    · exact cs.tbl_nonneg e hmem
  · intro e he
    rcases mem_ptInsert cs.keys_nodup e he with rfl | ⟨hmem, _⟩
    · exact cs.f_lt
    · exact cs.tbl_lt e hmem
  · intro e he
    rcases mem_ptInsert cs.keys_nodup e he with rfl | ⟨hmem, _⟩
    · rw [hpageF]
    · rw [hpage e.2 (cs.tbl_nonneg e hmem) (cs.f_not_val e hmem)]
      exact cs.tbl_pid e hmem
  · intro e he
    rcases mem_ptInsert cs.keys_nodup e he with rfl | ⟨hmem, _⟩
    · exact cs.f_not_free
    · exact cs.tbl_not_free e hmem
  · intro e he
    rcases mem_ptInsert cs.keys_nodup e he with rfl | ⟨hmem, _⟩
    · exact hpid
    · exact cs.keys_valid e hmem

theorem pageAt_pin_clean (i : BPMInstance) (f g : Int) :
    (pageAt (setPage i f { pageAt i f with is_dirty := false }) g).pin_count =
      (pageAt i g).pin_count := by
  rcases pageAt_setPage_cases i f { pageAt i f with is_dirty := false } g with
    h | ⟨_, _, h, he⟩
  · rw [h]
  · rw [h, ← he]

theorem pageAt_pid_clean (i : BPMInstance) (f g : Int) :
    (pageAt (setPage i f { pageAt i f with is_dirty := false }) g).page_id =
      (pageAt i g).page_id := by
  rcases pageAt_setPage_cases i f { pageAt i f with is_dirty := false } g with
    h | ⟨_, _, h, he⟩
  · rw [h]
  · rw [h, ← he]

/-- The invariant only depends on the fields it mentions: transferring it
along a state whose pages agree on pin counts and page ids. -/
theorem inv_transfer {valid : Int → Prop} (i k : BPMInstance)
    (hps : k.pool_size = i.pool_size)
    (hN : k.num_instances = i.num_instances)
    (hk : k.instance_index = i.instance_index)
    (hnext : k.next_page_id = i.next_page_id)
    (hlen : k.pages.length = i.pages.length)
    (hrepl : k.replacer = i.replacer)
    (hfree : k.free_list = i.free_list)
    (htbl : k.page_table = i.page_table)
    (hpin : ∀ g : Int, (pageAt k g).pin_count = (pageAt i g).pin_count)
    (hpid : ∀ g : Int, (pageAt k g).page_id = (pageAt i g).page_id)
    (inv : Inv valid i) : Inv valid k := by
  refine ⟨?_, ?_, ?_, ?_, ?_, ?_, ?_, ?_, ?_, ?_, ?_, ?_, ?_, ?_, ?_, ?_,
    ?_, ?_, ?_, ?_, ?_⟩
  · rw [hlen, hps]; exact inv.pages_len
  · rw [hN]; exact inv.inst_pos
  · rw [hfree]; exact inv.free_nonneg
  · rw [hfree, hps]; exact inv.free_lt
  · rw [hfree]
    intro g hg
    rw [hpin g]
    exact inv.free_pin g hg
  · rw [hrepl]; exact inv.repl_nonneg
  · rw [hrepl, hps]; exact inv.repl_lt
  · rw [hrepl]
    intro g hg
    rw [hpin g]
    exact inv.repl_pin g hg
  · rw [hfree]; exact inv.free_nodup
  · rw [hrepl]; exact inv.repl_nodup
  · rw [hfree, hrepl]; exact inv.disj
  · rw [hps, hfree, hrepl]
    intro g hg0 hglt
    rcases inv.cover g hg0 hglt with h | h | h
    · exact Or.inl h
    · exact Or.inr (Or.inl h)
    · exact Or.inr (Or.inr (by rw [hpin g]; exact h))
  · rw [htbl]; exact inv.tbl_nonneg
  · rw [htbl, hps]; exact inv.tbl_lt
  · rw [htbl]
    intro e he
    rw [hpid e.2]
    exact inv.tbl_pid e he
  · rw [htbl, hfree]; exact inv.tbl_not_free
  · rw [htbl]; exact inv.keys_nodup
  · rw [htbl]; exact inv.vals_nodup
  · rw [htbl]; exact inv.keys_valid
  · rw [hnext]; exact inv.next_nonneg
  · rw [hnext, hN, hk]; exact inv.next_mod

theorem flushAllAux_fields (l : List (Int × Int)) :
    ∀ (i : BPMInstance) (dm : DiskManager),
      (flushAllAux l i dm).1.pool_size = i.pool_size ∧
      (flushAllAux l i dm).1.num_instances = i.num_instances ∧
      (flushAllAux l i dm).1.instance_index = i.instance_index ∧
      (flushAllAux l i dm).1.next_page_id = i.next_page_id ∧
      (flushAllAux l i dm).1.replacer = i.replacer ∧
      (flushAllAux l i dm).1.free_list = i.free_list ∧
      (flushAllAux l i dm).1.page_table = i.page_table ∧
      (flushAllAux l i dm).1.pages.length = i.pages.length ∧
      (∀ g : Int,
        (pageAt (flushAllAux l i dm).1 g).pin_count = (pageAt i g).pin_count ∧
        (pageAt (flushAllAux l i dm).1 g).page_id = (pageAt i g).page_id) := by
  induction l with
  | nil => intro i dm; simp [flushAllAux]
  | cons e rest ih =>
      intro i dm
      obtain ⟨p, f⟩ := e
      rw [flushAllAux]
      obtain ⟨h1, h2, h3, h4, h5, h6, h7, h8, h9⟩ :=
        ih (setPage i f { pageAt i f with is_dirty := false })
          (dm.writePage p (pageAt i f).data)
      refine ⟨by simpa using h1, by simpa using h2, by simpa using h3,
        by simpa using h4, by simpa using h5, by simpa using h6,
        by simpa using h7, by simpa using h8, ?_⟩
      intro g
      refine ⟨?_, ?_⟩
      · rw [(h9 g).1, pageAt_pin_clean]
      · rw [(h9 g).2, pageAt_pid_clean]

theorem inv_flushPg {valid : Int → Prop} {i : BPMInstance} {dm : DiskManager}
    {p : Int} (inv : Inv valid i) : Inv valid (i.flushPg dm p).2.1 := by
  cases hl : ptLookup i.page_table p with
  | none =>
      simp only [BPMInstance.flushPg, hl]
      exact inv
  | some f =>
      simp only [BPMInstance.flushPg, hl]
      exact inv_transfer i (setPage i f { pageAt i f with is_dirty := false })
        rfl rfl rfl rfl (by simp) rfl rfl rfl
        (pageAt_pin_clean i f) (pageAt_pid_clean i f) inv

theorem inv_flushAll {valid : Int → Prop} {i : BPMInstance}
    {dm : DiskManager} (inv : Inv valid i) :
    Inv valid (i.flushAllPgs dm).1 := by
  obtain ⟨h1, h2, h3, h4, h5, h6, h7, h8, h9⟩ :=
    flushAllAux_fields i.page_table i dm
  exact inv_transfer i (flushAllAux i.page_table i dm).1
    h1 h2 h3 h4 h8 h5 h6 h7 (fun g => (h9 g).1)
    (fun g => (h9 g).2) inv

theorem pageAt_init (ps N k : Nat) (f : Int) :
    pageAt (BPMInstance.init ps N k) f = initPage := by
  show (List.replicate ps initPage).getD f.toNat initPage = initPage
  rcases Nat.lt_or_ge f.toNat ps with h | h
  · rw [List.getD_eq_getElem?_getD, List.getElem?_replicate, if_pos h]
    rfl
  · exact getD_of_le _ (by simpa using h)

theorem inv_init {valid : Int → Prop} (ps N k : Nat) (hpos : 0 < N)
    (hlt : k < N) : Inv valid (BPMInstance.init ps N k) := by
  have hfree : ∀ g : Int,
      g ∈ (BPMInstance.init ps N k).free_list ↔ ∃ n < ps, g = (n : Int) := by
    intro g
    show g ∈ (List.range ps).map (fun n : Nat => (n : Int)) ↔ _
    simp only [List.mem_map, List.mem_range]
    constructor
    · rintro ⟨n, hn, rfl⟩
      exact ⟨n, hn, rfl⟩
    · rintro ⟨n, hn, rfl⟩
      exact ⟨n, hn, rfl⟩
  refine ⟨?_, hpos, ?_, ?_, ?_, ?_, ?_, ?_, ?_, ?_, ?_, ?_, ?_, ?_, ?_, ?_,
    ?_, ?_, ?_, ?_, ?_⟩
  · show (List.replicate ps initPage).length = ps
    simp
  · intro g hg
    rcases (hfree g).mp hg with ⟨n, _, rfl⟩
    exact Int.natCast_nonneg n
  · intro g hg
    rcases (hfree g).mp hg with ⟨n, hn, rfl⟩
    simpa using hn
  · intro g _
    rw [pageAt_init]
    rfl
  · intro g hg
    simp [BPMInstance.init] at hg
  · intro g hg
    simp [BPMInstance.init] at hg
  · intro g hg
    simp [BPMInstance.init] at hg
  · show ((List.range ps).map (fun n : Nat => (n : Int))).Nodup
    refine List.Nodup.map ?_ (List.nodup_range ps)
    intro a b h
    simpa using h
  · show (List.nil : List Int).Nodup
    simp
  · intro g _ hg
    simp [BPMInstance.init] at hg
  · intro g hg0 hglt
    left
    exact (hfree g).mpr ⟨g.toNat, hglt, (Int.toNat_of_nonneg hg0).symm⟩
  · intro e he
    simp [BPMInstance.init] at he
  · intro e he
    simp [BPMInstance.init] at he
  · intro e he
    simp [BPMInstance.init] at he
  · intro e he
    simp [BPMInstance.init] at he
  · show ((List.nil : List (Int × Int)).map Prod.fst).Nodup
    simp
  · show ((List.nil : List (Int × Int)).map Prod.snd).Nodup
    simp
  · intro e he
    simp [BPMInstance.init] at he
  · exact Int.natCast_nonneg k
  · show (k : Int) % (N : Int) = (k : Int)
    exact Int.emod_eq_of_lt (Int.natCast_nonneg k) (by exact_mod_cast hlt)

/-- Popping the head of the free list claims that slot. -/
theorem claimed_of_free {valid : Int → Prop} {i : BPMInstance} {f : Int}
    {rest : List Int} (inv : Inv valid i) (hfl : i.free_list = f :: rest) :
    ClaimedSlot valid { i with free_list := rest } f := by
  have hf : f ∈ i.free_list := by
    rw [hfl]; exact List.mem_cons_self f rest
  have hnd : f ∉ rest ∧ rest.Nodup := by
    have h := inv.free_nodup
    rw [hfl] at h
    exact List.nodup_cons.mp h
  have hrsub : ∀ g ∈ rest, g ∈ i.free_list := by
    intro g hg
    rw [hfl]
    exact List.mem_cons_of_mem f hg
  refine ⟨inv.pages_len, inv.inst_pos, inv.free_nonneg f hf,
    inv.free_lt f hf, hnd.1, inv.disj f hf, ?_,
    fun g hg => inv.free_nonneg g (hrsub g hg),
    fun g hg => inv.free_lt g (hrsub g hg),
    fun g hg => inv.free_pin g (hrsub g hg),
    inv.repl_nonneg, inv.repl_lt, inv.repl_pin,
    hnd.2, inv.repl_nodup,
    fun g hg => inv.disj g (hrsub g hg),
    ?_, inv.tbl_nonneg, inv.tbl_lt, inv.tbl_pid, ?_,
    inv.keys_nodup, inv.vals_nodup, inv.keys_valid⟩
  · intro e he hef
    exact inv.tbl_not_free e he (by rw [hef]; exact hf)
  · intro g hg0 hglt
    rcases inv.cover g hg0 hglt with h | h | h
    · rw [hfl] at h
      rcases List.mem_cons.mp h with rfl | h'
      · exact Or.inl rfl
      · exact Or.inr (Or.inl h')
    · exact Or.inr (Or.inr (Or.inl h))
    · exact Or.inr (Or.inr (Or.inr h))
  · intro e he hmem
    exact inv.tbl_not_free e he (hrsub e.2 hmem)

/-- Victimizing the front of the replacer and erasing its old binding claims
that slot. -/
theorem claimed_of_victim {valid : Int → Prop} {i : BPMInstance} {f : Int}
    {vs : List Int} (inv : Inv valid i) (hfl : i.free_list = [])
    (hr : i.replacer.frame_ids = f :: vs) :
    ClaimedSlot valid
      { i with free_list := [], replacer := { frame_ids := vs },
               page_table := ptErase i.page_table (pageAt i f).page_id }
      f := by
  have hf : f ∈ i.replacer.frame_ids := by
    rw [hr]; exact List.mem_cons_self f vs
  have hnd : f ∉ vs ∧ vs.Nodup := by
    have h := inv.repl_nodup
    rw [hr] at h
    exact List.nodup_cons.mp h
  have hvsub : ∀ g ∈ vs, g ∈ i.replacer.frame_ids := by
    intro g hg
    rw [hr]
    exact List.mem_cons_of_mem f hg
  have hesub : ∀ e ∈ ptErase i.page_table (pageAt i f).page_id,
      e ∈ i.page_table := fun e he => mem_ptErase he
  refine ⟨inv.pages_len, inv.inst_pos, inv.repl_nonneg f hf,
    inv.repl_lt f hf, List.not_mem_nil f, hnd.1, ?_,
    fun g hg => absurd hg (List.not_mem_nil g),
    fun g hg => absurd hg (List.not_mem_nil g),
    fun g hg => absurd hg (List.not_mem_nil g),
    fun g hg => inv.repl_nonneg g (hvsub g hg),
    fun g hg => inv.repl_lt g (hvsub g hg),
    fun g hg => inv.repl_pin g (hvsub g hg),
    List.nodup_nil, hnd.2,
    fun g hg => absurd hg (List.not_mem_nil g),
    ?_,
    fun e he => inv.tbl_nonneg e (hesub e he),
    fun e he => inv.tbl_lt e (hesub e he),
    fun e he => inv.tbl_pid e (hesub e he),
    fun e he => List.not_mem_nil e.2,
    ?_, ?_,
    fun e he => inv.keys_valid e (hesub e he)⟩
  · exact vals_of_ptErase_pid inv.keys_nodup
      (fun e he hef => by rw [← inv.tbl_pid e he, hef])
  · intro g hg0 hglt
    rcases inv.cover g hg0 hglt with h | h | h
    · rw [hfl] at h
      simp at h
    · rw [hr] at h
      rcases List.mem_cons.mp h with rfl | h'
      · exact Or.inl rfl
      · exact Or.inr (Or.inr (Or.inl h'))
    · exact Or.inr (Or.inr (Or.inr h))
  · exact List.Nodup.sublist ((ptErase_sublist _ _).map Prod.fst)
      inv.keys_nodup
  · exact List.Nodup.sublist ((ptErase_sublist _ _).map Prod.snd)
      inv.vals_nodup

theorem inv_newPg {valid : Int → Prop} {i : BPMInstance} {dm : DiskManager}
    (inv : Inv valid i) : Inv valid (i.newPg dm).2.1 := by
  have hmod : (i.next_page_id + (i.num_instances : Int)) %
      (i.num_instances : Int) = (i.instance_index : Int) := by
    rw [← inv.next_mod]
    simp [Int.add_mul_emod_self_left]
  have hn1 : 0 ≤ i.next_page_id + (i.num_instances : Int) :=
    add_nonneg inv.next_nonneg (Int.natCast_nonneg _)
  cases hfl : i.free_list with
  | cons f rest =>
      simp only [BPMInstance.newPg, hfl, newPgFinish, BPMInstance.allocatePage]
      exact inv_of_claimed (claimed_of_free inv hfl)
        (Or.inr inv.next_nonneg) hn1 hmod
  | nil =>
      cases hr : i.replacer.frame_ids with
      | nil =>
          simp only [BPMInstance.newPg, hfl, LRUReplacer.victim, hr]
          exact inv
      | cons f vs =>
          simp only [BPMInstance.newPg, hfl, LRUReplacer.victim, hr,
            newPgFinish, BPMInstance.allocatePage, eq_self_iff_true, if_true]
          exact inv_of_claimed (claimed_of_victim inv hfl hr)
            (Or.inr inv.next_nonneg) hn1 hmod

theorem inv_fetch_hit {valid : Int → Prop} {i : BPMInstance} {p f : Int}
    (inv : Inv valid i) (hl : ptLookup i.page_table p = some f) :
    Inv valid
      { setPage i f
          { pageAt i f with pin_count := (pageAt i f).pin_count + 1 } with
        replacer := i.replacer.pin f } := by
  have hmem : (p, f) ∈ i.page_table := ptLookup_mem hl
  have hf0 : 0 ≤ f := inv.tbl_nonneg (p, f) hmem
  have hflt : f.toNat < i.pool_size := inv.tbl_lt (p, f) hmem
  have hfnb : f ∉ i.free_list := inv.tbl_not_free (p, f) hmem
  have hflen : f.toNat < i.pages.length := by
    rw [inv.pages_len]; exact hflt
  have hpin0 : 0 ≤ (pageAt i f).pin_count := by
    rcases inv.cover f hf0 hflt with h | h | h
    · exact absurd h hfnb
    · rw [inv.repl_pin f h]
    · omega
  have htn : ∀ g : Int, 0 ≤ g → g ≠ f → g.toNat ≠ f.toNat := fun g hg hne h =>
    hne (toNat_injective_on_nonneg hg hf0 h)
  have hpage : ∀ g : Int, 0 ≤ g → g ≠ f →
      pageAt { setPage i f
          { pageAt i f with pin_count := (pageAt i f).pin_count + 1 } with
        replacer := i.replacer.pin f } g = pageAt i g := by
    intro g hg0 hgf
    rw [pageAt_replacer_update]
    exact pageAt_setPage_ne _ (Ne.symm (htn g hg0 hgf))
  have hpageF : pageAt { setPage i f
          { pageAt i f with pin_count := (pageAt i f).pin_count + 1 } with
        replacer := i.replacer.pin f } f =
      { pageAt i f with pin_count := (pageAt i f).pin_count + 1 } := by
    rw [pageAt_replacer_update]
    exact pageAt_setPage_self _ hflen
  refine ⟨?_, inv.inst_pos, inv.free_nonneg, inv.free_lt, ?_,
    ?_, ?_, ?_, inv.free_nodup, pin_nodup inv.repl_nodup, ?_, ?_,
    inv.tbl_nonneg, inv.tbl_lt, ?_, inv.tbl_not_free, inv.keys_nodup,
    inv.vals_nodup, inv.keys_valid, inv.next_nonneg, inv.next_mod⟩
  · show (i.pages.set _ _).length = i.pool_size
    rw [List.length_set]
    exact inv.pages_len
  · intro g hg
    have hgf : g ≠ f := fun h => hfnb (h ▸ hg)
    rw [hpage g (inv.free_nonneg g hg) hgf]
    exact inv.free_pin g hg
  · intro g hg
    exact inv.repl_nonneg g (mem_of_mem_pin hg)
  · intro g hg
    exact inv.repl_lt g (mem_of_mem_pin hg)
  · intro g hg
    have hgm := mem_of_mem_pin hg
    have hgf : g ≠ f := fun h => not_mem_pin_self inv.repl_nodup (h ▸ hg)
    rw [hpage g (inv.repl_nonneg g hgm) hgf]
    exact inv.repl_pin g hgm
  · intro g hg hgr
    exact inv.disj g hg (mem_of_mem_pin hgr)
  · intro g hg0 hglt
    by_cases hgf : g = f
    · subst hgf
      right; right
      rw [hpageF]
      show 0 < (pageAt i g).pin_count + 1
      omega
    · rcases inv.cover g hg0 hglt with h | h | h
      · exact Or.inl h
      · exact Or.inr (Or.inl (mem_pin_of_ne hgf h))
      · refine Or.inr (Or.inr ?_)
        rw [hpage g hg0 hgf]
        exact h
  · intro e he
    by_cases hef : e.2 = f
    · have h2 := inv.tbl_pid e he
      rw [hef] at h2 ⊢
      rw [hpageF]
      exact h2
    · rw [hpage e.2 (inv.tbl_nonneg e he) hef]
      exact inv.tbl_pid e he

theorem inv_fetchPg {valid : Int → Prop} {i : BPMInstance} {dm : DiskManager}
    {p : Int} (hp : valid p) (inv : Inv valid i) :
    Inv valid (i.fetchPg dm p).2.1 := by
  cases hl : ptLookup i.page_table p with
  | some f =>
      simp only [BPMInstance.fetchPg, hl]
      exact inv_fetch_hit inv hl
  | none =>
      cases hfl : i.free_list with
      | cons f rest =>
          have hnr : f ∉ i.replacer.frame_ids :=
            inv.disj f (by rw [hfl]; exact List.mem_cons_self f rest)
          simp only [BPMInstance.fetchPg, hl, hfl, fetchInstall,
            setPage_replacer]
          rw [pin_of_not_mem hnr]
          exact inv_of_claimed (claimed_of_free inv hfl) (Or.inl hp)
            inv.next_nonneg inv.next_mod
      | nil =>
          cases hr : i.replacer.frame_ids with
          | nil =>
              simp only [BPMInstance.fetchPg, hl, hfl, LRUReplacer.victim, hr]
              exact inv
          | cons f vs =>
              have hnd : f ∉ vs ∧ vs.Nodup := by
                have h := inv.repl_nodup
                rw [hr] at h
                exact List.nodup_cons.mp h
              simp only [BPMInstance.fetchPg, hl, hfl, LRUReplacer.victim, hr,
                fetchInstall, setPage_replacer, eq_self_iff_true, if_true]
              rw [pin_of_not_mem
                (show f ∉ (LRUReplacer.mk vs).frame_ids from hnd.1)]
              exact inv_of_claimed (claimed_of_victim inv hfl hr) (Or.inl hp)
                inv.next_nonneg inv.next_mod

theorem inv_unpin_keep {valid : Int → Prop} {i : BPMInstance} {p f : Int}
    (inv : Inv valid i) (hl : ptLookup i.page_table p = some f)
    (hpin : 0 < (pageAt i f).pin_count)
    (pg' : Page) (hid : pg'.page_id = (pageAt i f).page_id)
    (hpos : 0 < pg'.pin_count) :
    Inv valid (setPage i f pg') := by
  have hmem : (p, f) ∈ i.page_table := ptLookup_mem hl
  have hf0 : 0 ≤ f := inv.tbl_nonneg (p, f) hmem
  have hflt : f.toNat < i.pool_size := inv.tbl_lt (p, f) hmem
  have hfnb : f ∉ i.free_list := inv.tbl_not_free (p, f) hmem
  have hfnr : f ∉ i.replacer.frame_ids := fun h => by
    have h2 := inv.repl_pin f h
    omega
  have hflen : f.toNat < i.pages.length := by
    rw [inv.pages_len]; exact hflt
  have htn : ∀ g : Int, 0 ≤ g → g ≠ f → g.toNat ≠ f.toNat := fun g hg hne h =>
    hne (toNat_injective_on_nonneg hg hf0 h)
  have hpage : ∀ g : Int, 0 ≤ g → g ≠ f →
      pageAt (setPage i f pg') g = pageAt i g := fun g hg0 hgf =>
    pageAt_setPage_ne _ (Ne.symm (htn g hg0 hgf))
  have hpageF : pageAt (setPage i f pg') f = pg' := pageAt_setPage_self _ hflen
  refine ⟨?_, inv.inst_pos, inv.free_nonneg, inv.free_lt, ?_,
    inv.repl_nonneg, inv.repl_lt, ?_, inv.free_nodup, inv.repl_nodup,
    inv.disj, ?_, inv.tbl_nonneg, inv.tbl_lt, ?_, inv.tbl_not_free,
    inv.keys_nodup, inv.vals_nodup, inv.keys_valid, inv.next_nonneg,
    inv.next_mod⟩
  · show (i.pages.set _ _).length = i.pool_size
    rw [List.length_set]
    exact inv.pages_len
  · intro g hg
    have hgf : g ≠ f := fun h => hfnb (h ▸ hg)
    rw [hpage g (inv.free_nonneg g hg) hgf]
    exact inv.free_pin g hg
  · intro g hg
    have hgf : g ≠ f := fun h => hfnr (h ▸ hg)
    rw [hpage g (inv.repl_nonneg g hg) hgf]
    exact inv.repl_pin g hg
  · intro g hg0 hglt
    by_cases hgf : g = f
    · subst hgf
      right; right
      rw [hpageF]
      exact hpos
    · rcases inv.cover g hg0 hglt with h | h | h
      · exact Or.inl h
      · exact Or.inr (Or.inl h)
      · refine Or.inr (Or.inr ?_)
        rw [hpage g hg0 hgf]
        exact h
  · intro e he
    by_cases hef : e.2 = f
    · have h2 := inv.tbl_pid e he
      rw [hef] at h2 ⊢
      rw [hpageF, hid]
      exact h2
    · rw [hpage e.2 (inv.tbl_nonneg e he) hef]
      exact inv.tbl_pid e he

theorem inv_unpin_evict {valid : Int → Prop} {i : BPMInstance} {p f : Int}
    (inv : Inv valid i) (hl : ptLookup i.page_table p = some f)
    (hpin : 0 < (pageAt i f).pin_count)
    (pg' : Page) (hid : pg'.page_id = (pageAt i f).page_id)
    (hz : pg'.pin_count = 0) :
    Inv valid { setPage i f pg' with replacer := i.replacer.unpin f } := by
  have hmem : (p, f) ∈ i.page_table := ptLookup_mem hl
  have hf0 : 0 ≤ f := inv.tbl_nonneg (p, f) hmem
  have hflt : f.toNat < i.pool_size := inv.tbl_lt (p, f) hmem
  have hfnb : f ∉ i.free_list := inv.tbl_not_free (p, f) hmem
  have hfnr : f ∉ i.replacer.frame_ids := fun h => by
    have h2 := inv.repl_pin f h
    omega
  have hflen : f.toNat < i.pages.length := by
    rw [inv.pages_len]; exact hflt
  have htn : ∀ g : Int, 0 ≤ g → g ≠ f → g.toNat ≠ f.toNat := fun g hg hne h =>
    hne (toNat_injective_on_nonneg hg hf0 h)
  have hpage : ∀ g : Int, 0 ≤ g → g ≠ f →
      pageAt { setPage i f pg' with replacer := i.replacer.unpin f } g =
        pageAt i g := fun g hg0 hgf => by
    rw [pageAt_replacer_update]
    exact pageAt_setPage_ne _ (Ne.symm (htn g hg0 hgf))
  have hpageF :
      pageAt { setPage i f pg' with replacer := i.replacer.unpin f } f =
        pg' := by
    rw [pageAt_replacer_update]
    exact pageAt_setPage_self _ hflen
  rw [unpin_of_not_mem hfnr]
  refine ⟨?_, inv.inst_pos, inv.free_nonneg, inv.free_lt, ?_,
    ?_, ?_, ?_, inv.free_nodup, ?_, ?_, ?_, inv.tbl_nonneg, inv.tbl_lt,
    ?_, inv.tbl_not_free, inv.keys_nodup, inv.vals_nodup, inv.keys_valid,
    inv.next_nonneg, inv.next_mod⟩
  · show (i.pages.set _ _).length = i.pool_size
    rw [List.length_set]
    exact inv.pages_len
  · intro g hg
    have hgf : g ≠ f := fun h => hfnb (h ▸ hg)
    have h2 : pageAt { setPage i f pg' with
        replacer := i.replacer.unpin f } g = pageAt i g :=
      hpage g (inv.free_nonneg g hg) hgf
    rw [unpin_of_not_mem hfnr] at h2
    rw [h2]
    exact inv.free_pin g hg
  · intro g hg
    rcases List.mem_append.mp hg with h | h
    · exact inv.repl_nonneg g h
    · rw [List.mem_singleton.mp h]
      exact hf0
  · intro g hg
    rcases List.mem_append.mp hg with h | h
    · exact inv.repl_lt g h
    · rw [List.mem_singleton.mp h]
      exact hflt
  · intro g hg
    rcases List.mem_append.mp hg with h | h
    · have hgf : g ≠ f := fun he => hfnr (he ▸ h)
      have h2 : pageAt { setPage i f pg' with
          replacer := i.replacer.unpin f } g = pageAt i g :=
        hpage g (inv.repl_nonneg g h) hgf
      rw [unpin_of_not_mem hfnr] at h2
      rw [h2]
      exact inv.repl_pin g h
    · rw [List.mem_singleton.mp h]
      have h2 := hpageF
      rw [unpin_of_not_mem hfnr] at h2
      rw [h2]
      exact hz
  · rw [List.nodup_append]
    refine ⟨inv.repl_nodup, List.nodup_singleton f, ?_⟩
    intro a ha hb
    rw [List.mem_singleton] at hb
    exact hfnr (hb ▸ ha)
  · intro g hg hgr
    rcases List.mem_append.mp hgr with h | h
    · exact inv.disj g hg h
    · rw [List.mem_singleton.mp h] at hg
      exact hfnb hg
  · intro g hg0 hglt
    by_cases hgf : g = f
    · subst hgf
      refine Or.inr (Or.inl ?_)
      exact List.mem_append.mpr (Or.inr (List.mem_singleton.mpr rfl))
    · rcases inv.cover g hg0 hglt with h | h | h
      · exact Or.inl h
      · exact Or.inr (Or.inl (List.mem_append.mpr (Or.inl h)))
      · refine Or.inr (Or.inr ?_)
        have h2 : pageAt { setPage i f pg' with
            replacer := i.replacer.unpin f } g = pageAt i g :=
          hpage g hg0 hgf
        rw [unpin_of_not_mem hfnr] at h2
        rw [h2]
        exact h
  · intro e he
    by_cases hef : e.2 = f
    · have h2 := inv.tbl_pid e he
      rw [hef] at h2 ⊢
      have h3 := hpageF
      rw [unpin_of_not_mem hfnr] at h3
      rw [h3, hid]
      exact h2
    · have h2 : pageAt { setPage i f pg' with
          replacer := i.replacer.unpin f } e.2 = pageAt i e.2 :=
        hpage e.2 (inv.tbl_nonneg e he) hef
      rw [unpin_of_not_mem hfnr] at h2
      rw [h2]
      exact inv.tbl_pid e he

theorem inv_unpinPg {valid : Int → Prop} {i : BPMInstance} {p : Int}
    {d : Bool} (inv : Inv valid i) : Inv valid (i.unpinPg p d).2 := by
  cases hl : ptLookup i.page_table p with
  | none =>
      simp only [BPMInstance.unpinPg, hl]
      exact inv
  | some f =>
      by_cases hle : (pageAt i f).pin_count ≤ 0
      · simp only [BPMInstance.unpinPg, hl, if_pos hle]
        exact inv
      · have hpin : 0 < (pageAt i f).pin_count := not_le.mp hle
        cases d with
        | true =>
            simp only [BPMInstance.unpinPg, hl, if_neg hle,
              eq_self_iff_true, if_true]
            split
            · rename_i hz
              have hz' : (pageAt i f).pin_count - 1 ≤ 0 := hz
              exact inv_unpin_evict inv hl hpin _ rfl
                (show (pageAt i f).pin_count - 1 = 0 by omega)
            · rename_i hz
              have hz' : ¬ (pageAt i f).pin_count - 1 ≤ 0 := hz
              exact inv_unpin_keep inv hl hpin _ rfl
                (show 0 < (pageAt i f).pin_count - 1 by omega)
        | false =>
            simp only [BPMInstance.unpinPg, hl, if_neg hle,
              Bool.false_eq_true, if_false]
            split
            · rename_i hz
              have hz' : (pageAt i f).pin_count - 1 ≤ 0 := hz
              exact inv_unpin_evict inv hl hpin _ rfl
                (show (pageAt i f).pin_count - 1 = 0 by omega)
            · rename_i hz
              have hz' : ¬ (pageAt i f).pin_count - 1 ≤ 0 := hz
              exact inv_unpin_keep inv hl hpin _ rfl
                (show 0 < (pageAt i f).pin_count - 1 by omega)

theorem inv_delete_state {valid : Int → Prop} {i : BPMInstance} {p f : Int}
    (inv : Inv valid i) (hl : ptLookup i.page_table p = some f)
    (hz : (pageAt i f).pin_count = 0) :
    Inv valid
      (BPMInstance.mk i.pool_size i.num_instances i.instance_index
        i.next_page_id (i.pages.set f.toNat initPage) (i.replacer.pin f)
        (i.free_list ++ [f]) (ptErase i.page_table p)) := by
  have hmem : (p, f) ∈ i.page_table := ptLookup_mem hl
  have hf0 : 0 ≤ f := inv.tbl_nonneg (p, f) hmem
  have hflt : f.toNat < i.pool_size := inv.tbl_lt (p, f) hmem
  have hfnb : f ∉ i.free_list := inv.tbl_not_free (p, f) hmem
  have hflen : f.toNat < i.pages.length := by
    rw [inv.pages_len]; exact hflt
  have htn : ∀ g : Int, 0 ≤ g → g ≠ f → g.toNat ≠ f.toNat := fun g hg hne h =>
    hne (toNat_injective_on_nonneg hg hf0 h)
  have hpage : ∀ g : Int, 0 ≤ g → g ≠ f →
      pageAt (BPMInstance.mk i.pool_size i.num_instances i.instance_index
        i.next_page_id (i.pages.set f.toNat initPage) (i.replacer.pin f)
        (i.free_list ++ [f]) (ptErase i.page_table p)) g = pageAt i g := by
    intro g hg0 hgf
    show (i.pages.set f.toNat initPage).getD g.toNat initPage = _
    rw [getD_set_ne _ initPage (Ne.symm (htn g hg0 hgf))]
    rfl
  have hpageF : pageAt (BPMInstance.mk i.pool_size i.num_instances
      i.instance_index i.next_page_id (i.pages.set f.toNat initPage)
      (i.replacer.pin f) (i.free_list ++ [f]) (ptErase i.page_table p)) f =
      initPage := by
    show (i.pages.set f.toNat initPage).getD f.toNat initPage = _
    exact getD_set_self _ initPage hflen
  have hvalne : ∀ e ∈ ptErase i.page_table p, e.2 ≠ f := by
    intro e he hef
    have he' := mem_ptErase he
    have heq : e = (p, f) := vals_nodup_inj inv.vals_nodup e he' (p, f) hmem hef
    exact ptErase_key_not_mem inv.keys_nodup e he (by rw [heq])
  refine ⟨?_, inv.inst_pos, ?_, ?_, ?_, ?_, ?_, ?_, ?_, pin_nodup
    inv.repl_nodup, ?_, ?_, ?_, ?_, ?_, ?_,
    List.Nodup.sublist ((ptErase_sublist _ _).map Prod.fst) inv.keys_nodup,
    List.Nodup.sublist ((ptErase_sublist _ _).map Prod.snd) inv.vals_nodup,
    ?_, inv.next_nonneg, inv.next_mod⟩
  · show (i.pages.set _ _).length = i.pool_size
    rw [List.length_set]
    exact inv.pages_len
  · intro g hg
    rcases List.mem_append.mp hg with h | h
    · exact inv.free_nonneg g h
    · rw [List.mem_singleton.mp h]
      exact hf0
  · intro g hg
    rcases List.mem_append.mp hg with h | h
    · exact inv.free_lt g h
    · rw [List.mem_singleton.mp h]
      exact hflt
  · intro g hg
    rcases List.mem_append.mp hg with h | h
    · have hgf : g ≠ f := fun he => hfnb (he ▸ h)
      rw [hpage g (inv.free_nonneg g h) hgf]
      exact inv.free_pin g h
    · rw [List.mem_singleton.mp h, hpageF]
      rfl
  · intro g hg
    exact inv.repl_nonneg g (mem_of_mem_pin hg)
  · intro g hg
    exact inv.repl_lt g (mem_of_mem_pin hg)
  · intro g hg
    have hgm := mem_of_mem_pin hg
    have hgf : g ≠ f := fun he => not_mem_pin_self inv.repl_nodup (he ▸ hg)
    rw [hpage g (inv.repl_nonneg g hgm) hgf]
    exact inv.repl_pin g hgm
  · rw [List.nodup_append]
    refine ⟨inv.free_nodup, List.nodup_singleton f, ?_⟩
    intro a ha hb
    rw [List.mem_singleton] at hb
    exact hfnb (hb ▸ ha)
  · intro g hg hgr
    rcases List.mem_append.mp hg with h | h
    · exact inv.disj g h (mem_of_mem_pin hgr)
    · rw [List.mem_singleton.mp h] at hgr
      exact not_mem_pin_self inv.repl_nodup hgr
  · intro g hg0 hglt
    by_cases hgf : g = f
    · subst hgf
      exact Or.inl (List.mem_append.mpr (Or.inr (List.mem_singleton.mpr rfl)))
    · rcases inv.cover g hg0 hglt with h | h | h
      · exact Or.inl (List.mem_append.mpr (Or.inl h))
      · exact Or.inr (Or.inl (mem_pin_of_ne hgf h))
      · refine Or.inr (Or.inr ?_)
        rw [hpage g hg0 hgf]
        exact h
  · intro e he
    exact inv.tbl_nonneg e (mem_ptErase he)
  · intro e he
    exact inv.tbl_lt e (mem_ptErase he)
  · intro e he
    rw [hpage e.2 (inv.tbl_nonneg e (mem_ptErase he)) (hvalne e he)]
    exact inv.tbl_pid e (mem_ptErase he)
  · intro e he hmem2
    rcases List.mem_append.mp hmem2 with h | h
    · exact inv.tbl_not_free e (mem_ptErase he) h
    · exact hvalne e he (List.mem_singleton.mp h)
  · intro e he
    exact inv.keys_valid e (mem_ptErase he)

theorem inv_deletePg {valid : Int → Prop} {i : BPMInstance} {dm : DiskManager}
    {p : Int} (inv : Inv valid i) : Inv valid (i.deletePg dm p).2.1 := by
  cases hl : ptLookup i.page_table p with
  | none =>
      simp only [BPMInstance.deletePg, hl]
      exact inv
  | some f =>
      by_cases hpin : (pageAt i f).pin_count ≠ 0
      · simp only [BPMInstance.deletePg, hl, if_pos hpin]
        exact inv
      · have hz : (pageAt i f).pin_count = 0 := not_ne_iff.mp hpin
        simp only [BPMInstance.deletePg, hl, if_neg hpin]
        exact inv_delete_state inv hl hz

/-- The invariant holds in every reachable state. -/
theorem reach_inv {d0 : Int → Nat} {valid : Int → Prop}
    {s : BPMInstance × DiskManager} (h : Reach d0 valid s) :
    Inv valid s.1 := by
  induction h with
  | init ps N k hpos hlt => exact inv_init ps N k hpos hlt
  | newPg _ ih => exact inv_newPg ih
  | fetchPg p hp _ ih => exact inv_fetchPg hp ih
  | unpinPg p d _ ih => exact inv_unpinPg ih
  | flushPg p _ ih => exact inv_flushPg ih
  | flushAllPgs _ ih => exact inv_flushAll ih
  | deletePg p _ ih => exact inv_deletePg ih

/-! ## C1: the partition invariant -/

/-- C1: in every instance state reachable by any sequence of the public
operations (new_page, fetch_page, unpin_page, flush_page, flush_all_pages,
delete_page) from a freshly constructed instance, the free list, the
replacer's order and the set of frames with positive pin count are pairwise
disjoint and their union is the full frame-id set `{0, …, pool_size − 1}`. -/
theorem partition_invariant (d0 : Int → Nat) (valid : Int → Prop)
    (s : BPMInstance × DiskManager) (h : Reach d0 valid s) :
    FramePartition s.1 := by
  have inv := reach_inv h
  refine ⟨inv.free_nonneg, inv.repl_nonneg, inv.disj, ?_, ?_, ?_⟩
  · intro f hf
    rw [inv.free_pin f hf]
    omega
  · intro f hf
    rw [inv.repl_pin f hf]
    omega
  · intro n
    constructor
    · intro hn
      exact inv.cover _ (Int.natCast_nonneg n) (by simpa using hn)
    · intro hcase
      rcases hcase with h2 | h2 | h2
      · have h3 := inv.free_lt _ h2
        simpa using h3
      · have h3 := inv.repl_lt _ h2
        simpa using h3
      · have h3 := toNat_lt_of_pin_pos h2
        rw [inv.pages_len] at h3
        simpa using h3

theorem partition_invariant_witness :
    FramePartition (BPMInstance.init 2 1 0) :=
  partition_invariant (fun _ => 0) (fun _ => True)
    (BPMInstance.init 2 1 0, DiskManager.init fun _ => 0)
    (Reach.init 2 1 0 (by decide) (by decide))

/-! ## C5: shard arithmetic -/

theorem newPg_pid {i : BPMInstance} {dm : DiskManager} {pid : Int}
    (h : (i.newPg dm).1 = some pid) : pid = i.next_page_id := by
  cases hfl : i.free_list with
  | cons f rest =>
      simp [BPMInstance.newPg, hfl, newPgFinish, BPMInstance.allocatePage] at h
      exact h.symm
  | nil =>
      cases hr : i.replacer.frame_ids with
      | nil =>
          simp [BPMInstance.newPg, hfl, LRUReplacer.victim, hr] at h
      | cons f vs =>
          simp [BPMInstance.newPg, hfl, LRUReplacer.victim, hr, newPgFinish,
            BPMInstance.allocatePage] at h
          exact h.symm

/-- C5: for an instance constructed with `instance_index` of `num_instances`
(so `next_page_id` starts at the index and is bumped by `num_instances`),
every reachable state satisfies `next_page_id mod num_instances =
instance_index`; `AllocatePage` returns an id with that residue and
re-establishes the residue after bumping (the `ValidatePageId` assertion),
and hence every page id handed out by a successful `new_page` satisfies
`id mod num_instances = instance_index`. -/
theorem shard_arithmetic (d0 : Int → Nat) (valid : Int → Prop)
    (s : BPMInstance × DiskManager) (h : Reach d0 valid s) :
    s.1.next_page_id % (s.1.num_instances : Int) =
      (s.1.instance_index : Int) ∧
    (s.1.allocatePage.1 % (s.1.num_instances : Int) =
        (s.1.instance_index : Int) ∧
      s.1.allocatePage.2.next_page_id % (s.1.num_instances : Int) =
        (s.1.instance_index : Int)) ∧
    (∀ pid, (s.1.newPg s.2).1 = some pid →
      pid % (s.1.num_instances : Int) = (s.1.instance_index : Int)) := by
  have inv := reach_inv h
  have hmod := inv.next_mod
  refine ⟨hmod, ⟨hmod, ?_⟩, ?_⟩
  · show (s.1.next_page_id + (s.1.num_instances : Int)) % _ = _
    rw [← hmod]
    simp [Int.add_mul_emod_self_left]
  · intro pid hpid
    rw [newPg_pid hpid]
    exact hmod

theorem shard_arithmetic_witness :
    (BPMInstance.init 1 4 1).next_page_id %
        ((BPMInstance.init 1 4 1).num_instances : Int) =
      ((BPMInstance.init 1 4 1).instance_index : Int) ∧
    (1 : Int) % ((BPMInstance.init 1 4 1).num_instances : Int) =
      ((BPMInstance.init 1 4 1).instance_index : Int) := by
  have h := shard_arithmetic (fun _ => 0) (fun _ => True)
    (BPMInstance.init 1 4 1, DiskManager.init fun _ => 0)
    (Reach.init 1 4 1 (by decide) (by decide))
  exact ⟨h.1, h.2.2 1 (by decide)⟩

/-! ## C4: flush_page on INVALID_PAGE_ID -/

/-- C4 is false as stated: `fetch_page(INVALID_PAGE_ID)` is itself a public
operation, and from a fresh instance it binds page −1 to a frame (the code
has no guard), so a reachable state exists whose page table has key −1 and on
which `flush_page(INVALID_PAGE_ID)` returns true, not false. -/
theorem flush_invalid_counterexample :
    Reach (fun _ => 0) (fun _ => True)
      ((BPMInstance.init 1 1 0).fetchPg (DiskManager.init fun _ => 0)
        INVALID_PAGE_ID).2 ∧
    (((BPMInstance.init 1 1 0).fetchPg (DiskManager.init fun _ => 0)
        INVALID_PAGE_ID).2.1.flushPg
      ((BPMInstance.init 1 1 0).fetchPg (DiskManager.init fun _ => 0)
        INVALID_PAGE_ID).2.2 INVALID_PAGE_ID).1 = true :=
  ⟨Reach.fetchPg INVALID_PAGE_ID trivial
    (Reach.init 1 1 0 (by decide) (by decide)), by decide⟩

/-- C4 (amended): in every instance state reachable by public operations in
which `fetch_page` is only invoked with non-negative (valid) page ids,
`INVALID_PAGE_ID` (−1) is never a key of the page table, and
`flush_page(INVALID_PAGE_ID)` returns false and leaves the state unchanged —
the implementation has no explicit `INVALID_PAGE_ID` guard and relies on this
invariant. -/
theorem flush_invalid (d0 : Int → Nat) (s : BPMInstance × DiskManager)
    (h : Reach d0 (fun p => 0 ≤ p) s) :
    ptLookup s.1.page_table INVALID_PAGE_ID = none ∧
    s.1.flushPg s.2 INVALID_PAGE_ID = (false, s.1, s.2) := by
  have inv := reach_inv h
  have hnone : ptLookup s.1.page_table INVALID_PAGE_ID = none := by
    apply ptLookup_eq_none
    intro e he heq
    have h2 : (0 : Int) ≤ e.1 := (inv.keys_valid e he).elim id id
    rw [heq] at h2
    exact absurd h2 (by decide)
  refine ⟨hnone, ?_⟩
  simp [BPMInstance.flushPg, hnone]

theorem flush_invalid_witness :
    ptLookup (BPMInstance.init 1 1 0).page_table INVALID_PAGE_ID = none ∧
    (BPMInstance.init 1 1 0).flushPg (DiskManager.init fun _ => 0)
        INVALID_PAGE_ID =
      (false, BPMInstance.init 1 1 0, DiskManager.init fun _ => 0) :=
  flush_invalid (fun _ => 0)
    (BPMInstance.init 1 1 0, DiskManager.init fun _ => 0)
    (Reach.init 1 1 0 (by decide) (by decide))

end Bustub
